import Mathlib

/-
Verification of the mavlink_socket_bridge relay-and-supervision engine.

Shallow embedding of:
  * `src/buffer_manager.py`        (class BufferManager)
  * `src/socketio_connection.py`   (SocketIOConnection: link-health check, flush)
  * `src/core.py`                  (handle_start_operation / handle_stop_operation)
  * `src/operations/color_tracker.py`  (Target / TargetManager / calculate_target_gps)
  * `src/operations/serial_listener.py` (OperationSerialListener._parse_line)

Python floats are modelled as exact rationals (ℚ); Python ints as ℤ or ℕ as
noted at each definition.  Wall-clock reads (`time.time()`) become explicit
`now : ℚ` arguments.  Fallible effects (socket emit raising, an operation's
`stop()` raising) become explicit boolean oracles selecting the `except` path,
exactly mirroring the `try/except` structure of the source.
-/

namespace MavBridge

/-! ## BufferManager (src/buffer_manager.py)

`BufferManager.__init__`: `self.buffer = []`, `self.last_msg_time = time.time()`.
The buffer holds opaque pre-cleaned message dictionaries, modelled by a type
parameter `α`.  `buffer_size` is a count, modelled as ℕ. -/

structure BufferState (α : Type) where
  buffer : List α
  last_msg_time : ℚ
deriving DecidableEq

/-- `BufferManager.add_message` (src/buffer_manager.py lines 26-47).
```
try:
    self.buffer.append(msg_dict)
    self.last_msg_time = time.time()
    if len(self.buffer) > self.buffer_size:
        self.buffer.pop(0)
    return len(self.buffer) >= self.buffer_size
except Exception as e:
    self.logger.error(...)
    return False
```
`fault = true` selects the `except` path (the record could not be appended:
the call logs and returns `False`, leaving the state as it was). -/
def add_message {α : Type} (buffer_size : ℕ) (st : BufferState α) (msg : α)
    (now : ℚ) (fault : Bool) : Bool × BufferState α :=
  if fault then (false, st)
  else
    let b1 := st.buffer ++ [msg]
    let b2 := if b1.length > buffer_size then b1.tail else b1
    (decide (b2.length ≥ buffer_size), { buffer := b2, last_msg_time := now })

/-- `BufferManager.check_timeout` (src/buffer_manager.py lines 49-53). -/
def check_timeout {α : Type} (flush_timeout : ℚ) (st : BufferState α) (now : ℚ) : Bool :=
  decide (now - st.last_msg_time > flush_timeout) && !st.buffer.isEmpty

/-- `BufferManager.clear_buffer` (src/buffer_manager.py lines 55-58). -/
def clear_buffer {α : Type} (st : BufferState α) (now : ℚ) : BufferState α :=
  { buffer := [], last_msg_time := now }

/-- A sequence of `add_message` calls; each element carries the message, the
wall-clock time of the call and the fault oracle for that call. -/
def addRun {α : Type} (buffer_size : ℕ) (st : BufferState α) :
    List (α × ℚ × Bool) → BufferState α
  | [] => st
  | (msg, now, fault) :: rest =>
      addRun buffer_size (add_message buffer_size st msg now fault).2 rest

/-! ## SocketIOConnection: link-health monitor (src/socketio_connection.py)

State: `self._last_check_time`, `self._disconnect_duration`; configuration:
`self._check_interval`, `self._max_disconnect_time`. -/

structure ConnCfg where
  check_interval : ℚ
  max_disconnect_time : ℚ
deriving DecidableEq

structure ConnState where
  last_check_time : ℚ
  disconnect_duration : ℚ
deriving DecidableEq

/-- `SocketIOConnection.check_persistent_disconnect` (lines 84-98).
```
current_time = time.time()
if current_time - self._last_check_time > self._check_interval:
    if not self.client.connected:
        self._disconnect_duration += (current_time - self._last_check_time)
        if self._disconnect_duration >= self._max_disconnect_time:
            return False                      # last_check_time NOT updated
    else:
        self._disconnect_duration = 0
    self._last_check_time = current_time
return True
```
Returns the boolean result (`False` = fatal) and the updated monitor state. -/
def check_persistent_disconnect (cfg : ConnCfg) (s : ConnState) (now : ℚ)
    (connected : Bool) : Bool × ConnState :=
  if now - s.last_check_time > cfg.check_interval then
    if connected = false then
      let d := s.disconnect_duration + (now - s.last_check_time)
      if d ≥ cfg.max_disconnect_time then
        (false, { s with disconnect_duration := d })
      else
        (true, { last_check_time := now, disconnect_duration := d })
    else
      (true, { last_check_time := now, disconnect_duration := 0 })
  else
    (true, s)

/-- `SocketIOConnection._on_connect` (lines 125-129): on a successful
connection the callback sets `_disconnect_duration = 0.0` and
`_last_check_time = time.time()`. -/
def on_connect (now : ℚ) : ConnState :=
  { last_check_time := now, disconnect_duration := 0 }

/-- A sequence of `check_persistent_disconnect` calls at the given times and
transport-connected observations; returns the list of results and the final
monitor state. -/
def checkRun (cfg : ConnCfg) (s : ConnState) :
    List (ℚ × Bool) → List Bool × ConnState
  | [] => ([], s)
  | (now, connected) :: rest =>
      let step := check_persistent_disconnect cfg s now connected
      let r := checkRun cfg step.2 rest
      (step.1 :: r.1, r.2)

/-! ## SocketIOConnection.flush_buffer (src/socketio_connection.py lines 256-268)

```
if buffer_manager.is_empty() or not self.client.connected: return True
try:
    buffer_content = buffer_manager.get_buffer_content()
    self.client.emit('mavlink_message', buffer_content)
    buffer_manager.clear_buffer()
    return True
except Exception as e:
    return False
```
`emit_ok = false` selects the path where `self.client.emit` raises.  The third
component of the result is the payload passed to `emit` (`none` when no
emission was attempted). -/
def flush_buffer {α : Type} (connected : Bool) (emit_ok : Bool)
    (st : BufferState α) (now : ℚ) : Bool × BufferState α × Option (List α) :=
  if st.buffer.isEmpty || !connected then (true, st, none)
  else if emit_ok then (true, clear_buffer st now, some st.buffer)
  else (false, st, some st.buffer)

/-! ## core.py: operation supervisor (src/core.py)

`active_operations` is a Python dict keyed by operation id; modelled as an
association list with unique keys.  An operation instance is characterised for
`handle_stop_operation` by whether its `stop()` raises. -/

structure OpInst where
  stop_raises : Bool
deriving DecidableEq

/-- `active_operations.get(op_id)` (dict lookup). -/
def regGet {β : Type} : List (String × β) → String → Option β
  | [], _ => none
  | (k, v) :: rest, key => if k = key then some v else regGet rest key

/-- `del active_operations[op_id]` (dict delete; keys are unique). -/
def regErase {β : Type} : List (String × β) → String → List (String × β)
  | [], _ => []
  | (k, v) :: rest, key => if k = key then rest else (k, v) :: regErase rest key

/-- `active_operations[op_id] = instance` (dict insert-or-replace). -/
def regPut {β : Type} : List (String × β) → String → β → List (String × β)
  | [], key, v => [(key, v)]
  | (k, w) :: rest, key, v =>
      if k = key then (k, v) :: rest else (k, w) :: regPut rest key v

structure OpResult where
  success : Bool
deriving DecidableEq

/-- `handle_stop_operation` (src/core.py lines 147-162).
```
op_id = data.get("id")
operation_instance = active_operations.get(op_id)
if not operation_instance:
    return {'success': False, ..., 'error': 'Operation ID not found.'}
try:
    operation_instance.stop()
    del active_operations[op_id]
    return {'success': True, 'id': op_id}
except Exception as e:
    return {'success': False, ..., 'error': ...}
```
When `stop()` raises, control jumps to `except` before the `del` executes, so
the registry is returned unchanged. -/
def handle_stop_operation (reg : List (String × OpInst)) (op_id : String) :
    OpResult × List (String × OpInst) :=
  match regGet reg op_id with
  | none => (⟨false⟩, reg)
  | some inst =>
      if inst.stop_raises then (⟨false⟩, reg)
      else (⟨true⟩, regErase reg op_id)

/-! ### handle_start_operation (src/core.py lines 115-145)

An operation class is characterised by the arity of its `__init__` (besides
`self`) and by what its `start()` returns.  The call site
`OperationClass(mav_copter, op_id, operation_output_queue, params, logger)`
passes 5 positional arguments; Python raises `TypeError` when that count does
not match the constructor's parameter count. -/

structure OpClass where
  init_arity : ℕ
  start_ok : Bool
deriving DecidableEq

/-- `OperationColorTracker.__init__(self, mav_handler, output_queue, params, logger)`
(src/operations/color_tracker.py lines 158-187): 4 parameters besides `self`,
none with defaults. -/
def OperationColorTracker_class (start_ok : Bool) : OpClass := ⟨4, start_ok⟩

/-- `OperationSerialListener.__init__(self, mav_handler, output_queue, params, logger)`
(src/operations/serial_listener.py lines 15-38): 4 parameters besides `self`. -/
def OperationSerialListener_class (start_ok : Bool) : OpClass := ⟨4, start_ok⟩

/-- Python positional-argument binding for `OperationClass(*args)`: succeeds
exactly when the number of supplied arguments matches the constructor arity,
else raises `TypeError` (modelled as `none`). -/
def instantiate_with (c : OpClass) (nargs : ℕ) : Option OpClass :=
  if nargs = c.init_arity then some c else none

structure StartResult where
  success : Bool
deriving DecidableEq

/-- `handle_start_operation` (src/core.py lines 115-145).  `op_map` models the
`OPERATION_MAP` dict (operation name → class path, loaded from config);
`class_of` models `get_operation_class` (dynamic import); `mav_ready` models
`mav_copter and mav_copter.is_ready()`.
```
class_path = OPERATION_MAP.get(op_name)
if not class_path: return failure
OperationClass = get_operation_class(class_path)
if not OperationClass: return failure
if not mav_copter or not mav_copter.is_ready(): return failure
try:
    operation_instance = OperationClass(mav_copter, op_id,
                                        operation_output_queue, params, logger)
    if operation_instance.start():
        active_operations[op_id] = operation_instance
        return {'success': True, 'id': op_id}
    else: return failure
except Exception as e: return failure
```
-/
def handle_start_operation (op_map : String → Option String)
    (class_of : String → Option OpClass) (mav_ready : Bool)
    (reg : List (String × OpClass)) (op_name op_id : String) :
    StartResult × List (String × OpClass) :=
  match op_map op_name with
  | none => (⟨false⟩, reg)
  | some class_path =>
    match class_of class_path with
    | none => (⟨false⟩, reg)
    | some c =>
      if mav_ready = false then (⟨false⟩, reg)
      else
        match instantiate_with c 5 with
        | none => (⟨false⟩, reg)
        | some inst =>
          if inst.start_ok then (⟨true⟩, regPut reg op_id inst)
          else (⟨false⟩, reg)

/-! ## OperationSerialListener._parse_line (src/operations/serial_listener.py lines 71-102)

Python strings are modelled as `List Char`. -/

/-- Python whitespace for `str.strip()` (ASCII subset). -/
def isSpaceChar (c : Char) : Bool :=
  c = ' ' || c = '\t' || c = '\n' || c = '\r' || c = '\x0b' || c = '\x0c'

/-- `str.strip()`. -/
def stripChars (s : List Char) : List Char :=
  ((s.dropWhile isSpaceChar).reverse.dropWhile isSpaceChar).reverse

/-- `str.split(sep)` with a one-character separator: splits on every
occurrence, keeping empty fields (Python semantics). -/
def splitChar (sep : Char) : List Char → List (List Char)
  | [] => [[]]
  | c :: rest =>
    let r := splitChar sep rest
    if c = sep then [] :: r
    else
      match r with
      | [] => [[c]]
      | g :: gs => (c :: g) :: gs

/-- `str.split(sep, 1)`: split at the first occurrence only.  Returns `[s]`
when the separator does not occur, `[before, after]` when it does. -/
def splitOnce (sep : Char) (s : List Char) : List (List Char) :=
  if sep ∈ s then [s.takeWhile (fun c => !(c = sep)),
                   (s.dropWhile (fun c => !(c = sep))).tail]
  else [s]

/-- A Python dict value in `_parse_line`: initially a string, replaced by a
float for the `lat`/`lon` keys. -/
inductive PyVal where
  | str (s : List Char)
  | num (q : ℚ)
deriving DecidableEq

/-- `data_dict[key] = value` (dict insert-or-replace, keyed by string). -/
def dictPut : List (List Char × PyVal) → List Char → PyVal →
    List (List Char × PyVal)
  | [], key, v => [(key, v)]
  | (k, w) :: rest, key, v =>
      if k = key then (k, v) :: rest else (k, w) :: dictPut rest key v

/-- `key in data_dict`. -/
def dictHas (d : List (List Char × PyVal)) (key : List Char) : Bool :=
  d.any (fun kv => kv.1 = key)

/-- `data_dict.get(key)` (first match; keys are unique by construction). -/
def dictGet : List (List Char × PyVal) → List Char → Option PyVal
  | [], _ => none
  | (k, v) :: rest, key => if k = key then some v else dictGet rest key

/-- The pair loop of `_parse_line`:
```
for pair in pairs:
    if '=' in pair:
        key, value = pair.split(':', 1)
        data_dict[key.strip()] = value.strip()
```
`pair.split(':', 1)` yields a single element when the pair has no colon, and
unpacking it into `key, value` raises `ValueError` (modelled as `.error ()`),
which the enclosing `except (ValueError, IndexError)` turns into `None`. -/
def buildDict : List (List Char) → List (List Char × PyVal) →
    Except Unit (List (List Char × PyVal))
  | [], d => .ok d
  | p :: ps, d =>
    if '=' ∈ p then
      match splitOnce ':' p with
      | [k, v] => buildDict ps (dictPut d (stripChars k) (.str (stripChars v)))
      | _ => .error ()
    else buildDict ps d

/-- `float(data_dict[k])` for `k ∈ {lat, lon}`: converts the stored string via
the numeric-parsing oracle `float_of` (raising `ValueError`, i.e. `.error`,
when the text is not a float). -/
def convertKey (float_of : List Char → Option ℚ)
    (d : List (List Char × PyVal)) (key : List Char) :
    Except Unit (List (List Char × PyVal)) :=
  match dictGet d key with
  | none => .ok d
  | some (.str s) =>
      match float_of s with
      | some q => .ok (dictPut d key (.num q))
      | none => .error ()
  | some (.num q) => .ok (dictPut d key (.num q))

def typeKey : List Char := ['t', 'y', 'p', 'e']
def latKey : List Char := ['l', 'a', 't']
def lonKey : List Char := ['l', 'o', 'n']

/-- `OperationSerialListener._parse_line` (src/operations/serial_listener.py
lines 71-102).
```
line = line.strip()
if not line: return None
try:
    data_dict = {}
    pairs = line.split(',')
    for pair in pairs:
        if '=' in pair:
            key, value = pair.split(':', 1)
            data_dict[key.strip()] = value.strip()
    if "type" not in data_dict: return None
    if 'lat' in data_dict: data_dict['lat'] = float(data_dict['lat'])
    if 'lon' in data_dict: data_dict['lon'] = float(data_dict['lon'])
    return data_dict
except (ValueError, IndexError) as e: return None
```
-/
def parse_line (float_of : List Char → Option ℚ) (line : List Char) :
    Option (List (List Char × PyVal)) :=
  let l := stripChars line
  if l.isEmpty then none
  else
    match buildDict (splitChar ',' l) [] with
    | .error _ => none
    | .ok d =>
      if !(dictHas d typeKey) then none
      else
        match convertKey float_of d latKey with
        | .error _ => none
        | .ok d1 =>
          match convertKey float_of d1 lonKey with
          | .error _ => none
          | .ok d2 => some d2

/-! ## Target acquisition (src/operations/color_tracker.py)

Pixel coordinates and geodetic fixes are pairs of exact rationals.  `uuid4`
identities are modelled by a fresh counter `next_id` (uuids never collide and
are never reused; the counter realises exactly that). -/

def Pixel : Type := ℚ × ℚ

def Gps : Type := ℚ × ℚ

instance : DecidableEq Pixel := instDecidableEqProd
instance : DecidableEq Gps := instDecidableEqProd

/-- `class Target` (src/operations/color_tracker.py lines 17-26).
`__init__(pixel_coords, gps_coords, confirmation_frames)` sets
`confirmation_counter = 1`, `frames_unseen = 0`, `is_reported = False` and
stores `confirmation_frames` in `self._confirmation_frames` (`conf_frames`
here).  Counters are Python ints, modelled as ℤ. -/
structure Target where
  id : ℕ
  last_pixel_coords : Pixel
  gps_coords : Gps
  confirmation_counter : ℤ
  frames_unseen : ℤ
  is_reported : Bool
  conf_frames : ℤ
deriving DecidableEq

/-- `TargetManager` configuration (src/operations/color_tracker.py lines 38-43). -/
structure TMConfig where
  confirmation_frames : ℤ
  pixel_distance_threshold : ℚ
  unseen_frames_threshold : ℤ
deriving DecidableEq

/-- `TargetManager` mutable state: `self.targets` plus the uuid freshness
counter. -/
structure TMState where
  targets : List Target
  next_id : ℕ
deriving DecidableEq

/-- One record put on `self.output_queue` (lines 79-88): the target's id and
its geodetic fix.  (The wall-clock `timestamp` field carries no information
about the tracking logic and is omitted.) -/
structure Report where
  id : ℕ
  lat : ℚ
  lon : ℚ
deriving DecidableEq

/-- `Target(pixel_coords, gps_coords, confirmation_frames)` as constructed by
`TargetManager.update` line 71 (with the manager's `confirmation_frames`). -/
def newTarget (cfg : TMConfig) (nid : ℕ) (p : Pixel) (g : Gps) : Target :=
  { id := nid, last_pixel_coords := p, gps_coords := g,
    confirmation_counter := 1, frames_unseen := 0, is_reported := false,
    conf_frames := cfg.confirmation_frames }

/-- `Target.update` (src/operations/color_tracker.py lines 28-34).
```
self.last_pixel_coords = pixel_coords
self.gps_coords = gps_coords
self.frames_unseen = 0
if self.confirmation_counter <= self._confirmation_frames:
    self.confirmation_counter += 1
```
-/
def targetUpdate (t : Target) (p : Pixel) (g : Gps) : Target :=
  { t with last_pixel_coords := p, gps_coords := g, frames_unseen := 0,
           confirmation_counter :=
             if t.confirmation_counter ≤ t.conf_frames then
               t.confirmation_counter + 1
             else t.confirmation_counter }

/-- Squared Euclidean pixel distance.  `math.hypot(dx, dy)` is
`Real.sqrt (dx^2 + dy^2)`; all comparisons in `find_closest_target` are
between non-negative distances (or against the threshold), so comparing
squares — together with an explicit positivity test of the threshold — is an
exact rational rendering of the float comparisons. -/
def distSq (p q : Pixel) : ℚ :=
  (p.1 - q.1) ^ 2 + (p.2 - q.2) ^ 2

/-- `TargetManager.find_closest_target` (lines 45-55), returning the id of the
selected target.
```
closest_target = None
min_dist = float('inf')
for target in self.targets:
    dist = math.hypot(...)
    if dist < self.pixel_distance_threshold and dist < min_dist:
        min_dist = dist
        closest_target = target
return closest_target
```
`hypot d < thr ↔ 0 < thr ∧ distSq < thr²`, and `hypot d < hypot d' ↔
distSq < distSq'`; the first target attaining the strict minimum wins. -/
def findClosestTarget (cfg : TMConfig) (targets : List Target) (p : Pixel) :
    Option ℕ :=
  (targets.foldl
    (fun (acc : Option (ℕ × ℚ)) t =>
      let d := distSq p t.last_pixel_coords
      let within : Prop :=
        0 < cfg.pixel_distance_threshold ∧
          d < cfg.pixel_distance_threshold ^ 2
      match acc with
      | none => if within then some (t.id, d) else none
      | some (bid, bd) =>
          if within ∧ d < bd then some (t.id, d) else some (bid, bd))
    none).map Prod.fst

/-- Accumulator of the detection loop in `TargetManager.update` (lines 59-71):
the evolving target list/fresh counter and `updated_targets_in_frame`. -/
structure CycleAcc where
  st : TMState
  updated : List ℕ
deriving DecidableEq

/-- One iteration of the detection loop of `TargetManager.update` (lines 61-71).
```
gps = calculate_target_gps(frame_shape, pixel, mav_telemetry)
if not gps: continue
closest = self.find_closest_target(pixel)
if closest:
    closest.update(pixel, gps)
    updated_targets_in_frame.add(closest.id)
else:
    self.targets.append(Target(pixel, gps, self.confirmation_frames))
```
`gpsOf` is the per-frame geodetic projection (`calculate_target_gps` with the
current frame shape and telemetry snapshot fixed). -/
def processDetection (cfg : TMConfig) (gpsOf : Pixel → Option Gps)
    (acc : CycleAcc) (p : Pixel) : CycleAcc :=
  match gpsOf p with
  | none => acc
  | some g =>
    match findClosestTarget cfg acc.st.targets p with
    | some tid =>
        { st := { acc.st with
                    targets := acc.st.targets.map
                      (fun t => if t.id = tid then targetUpdate t p g else t) },
          updated := tid :: acc.updated }
    | none =>
        { st := { targets := acc.st.targets ++ [newTarget cfg acc.st.next_id p g],
                  next_id := acc.st.next_id + 1 },
          updated := acc.updated }

/-- The whole detection loop of `TargetManager.update`. -/
def detectPhase (cfg : TMConfig) (gpsOf : Pixel → Option Gps) (st : TMState)
    (detections : List Pixel) : CycleAcc :=
  detections.foldl (processDetection cfg gpsOf) { st := st, updated := [] }

/-- `if target.id not in updated_targets_in_frame: target.frames_unseen += 1`
(lines 73-75). -/
def ageOne (updated : List ℕ) (t : Target) : Target :=
  if t.id ∈ updated then t else { t with frames_unseen := t.frames_unseen + 1 }

/-- The reporting guard of lines 78:
`not target.is_reported and target.confirmation_counter >= self.confirmation_frames`. -/
def willReport (cfg : TMConfig) (t : Target) : Bool :=
  !t.is_reported && decide (cfg.confirmation_frames ≤ t.confirmation_counter)

/-- `target.is_reported = True` applied when the reporting guard holds. -/
def markOne (cfg : TMConfig) (t : Target) : Target :=
  if willReport cfg t then { t with is_reported := true } else t

/-- The queue record of lines 79-88. -/
def mkReport (t : Target) : Report :=
  { id := t.id, lat := t.gps_coords.1, lon := t.gps_coords.2 }

/-- The second loop of `TargetManager.update` (lines 73-89): per target, in
list order, increment `frames_unseen` when unmatched, then emit a report and
set `is_reported` when the guard holds.  Returns the transformed target list
and the reports put on the output queue, in emission order. -/
def ageAndReport (cfg : TMConfig) (updated : List ℕ) :
    List Target → List Target × List Report
  | [] => ([], [])
  | t :: ts =>
    let t1 := ageOne updated t
    let rest := ageAndReport cfg updated ts
    if willReport cfg t1 then
      ({ t1 with is_reported := true } :: rest.1, mkReport t1 :: rest.2)
    else (t1 :: rest.1, rest.2)

/-- Line 92: `self.targets = [t for t in self.targets if
t.frames_unseen < self.unseen_frames_threshold]`. -/
def evictOld (cfg : TMConfig) (ts : List Target) : List Target :=
  ts.filter (fun t => t.frames_unseen < cfg.unseen_frames_threshold)

/-- `TargetManager.update` (lines 57-92), one full update cycle: detection
association, aging/reporting, eviction.  Returns the new state and the reports
emitted this cycle. -/
def tmUpdate (cfg : TMConfig) (gpsOf : Pixel → Option Gps) (st : TMState)
    (detections : List Pixel) : TMState × List Report :=
  let a := detectPhase cfg gpsOf st detections
  let ar := ageAndReport cfg a.updated a.st.targets
  ({ targets := evictOld cfg ar.1, next_id := a.st.next_id }, ar.2)

/-- A sequence of update cycles (one per frame); accumulates all reports in
emission order. -/
def tmRun (cfg : TMConfig) (gpsOf : Pixel → Option Gps) (st : TMState) :
    List (List Pixel) → TMState × List Report
  | [] => (st, [])
  | ds :: rest =>
    let step := tmUpdate cfg gpsOf st ds
    let r := tmRun cfg gpsOf step.1 rest
    (r.1, step.2 ++ r.2)

/-! ## calculate_target_gps (src/operations/color_tracker.py lines 115-155)

The guards (`alt <= 0.5`, `depression <= 1.0`) are pure rational arithmetic;
the post-guard formulas apply `math.tan/cos/sin/degrees` to degree-valued
arguments.  Those transcendental maps are abstracted into a `TrigModel` of
function parameters — the claims about this projection concern only the
guard structure, never a transcendental identity. -/

structure Telemetry where
  alt : ℚ
  yaw : ℚ
  pitch : ℚ
  camera_fixed_pitch : ℚ
  camera_fov_h : ℚ
  camera_fov_v : ℚ
  lat : ℚ
  lon : ℚ
deriving DecidableEq

/-- Abstract transcendental maps: `tanDeg x = tan(radians x)`,
`cosDeg x = cos(radians x)`, `sinDeg x = sin(radians x)`,
`degOfRad x = degrees x`. -/
structure TrigModel where
  tanDeg : ℚ → ℚ
  cosDeg : ℚ → ℚ
  sinDeg : ℚ → ℚ
  degOfRad : ℚ → ℚ

/-- The depression angle of lines 121-136 (degrees):
```
frame_height, frame_width = frame_shape[:2]
dy = frame_height / 2 - target_pixel[1]
angle_offset_pitch = (dy / (frame_height / 2)) * (camera_fov_v / 2)
total_camera_pitch = pitch + camera_fixed_pitch
depression_angle_deg = -(total_camera_pitch + angle_offset_pitch)
```
`frame` is `(height, width)` as in `frame_shape[:2]`. -/
def depression_angle_deg (frame : ℚ × ℚ) (target_pixel : Pixel)
    (telemetry : Telemetry) : ℚ :=
  let dy := frame.1 / 2 - target_pixel.2
  let angle_offset_pitch := dy / (frame.1 / 2) * (telemetry.camera_fov_v / 2)
  let total_camera_pitch := telemetry.pitch + telemetry.camera_fixed_pitch
  Neg.neg (total_camera_pitch + angle_offset_pitch)

/-- `calculate_target_gps` (src/operations/color_tracker.py lines 115-155).
Returns `none` (Python `None`) on either guard; otherwise the flat-Earth
projected fix. -/
def calculate_target_gps (trig : TrigModel) (frame : ℚ × ℚ)
    (target_pixel : Pixel) (telemetry : Telemetry) : Option Gps :=
  if telemetry.alt ≤ 1 / 2 then none
  else
    let dx := target_pixel.1 - frame.2 / 2
    let angle_offset_yaw := dx / (frame.2 / 2) * (telemetry.camera_fov_h / 2)
    let total_target_yaw_deg := telemetry.yaw + angle_offset_yaw
    let dep := depression_angle_deg frame target_pixel telemetry
    if dep ≤ 1 then none
    else
      let ground_distance := telemetry.alt / trig.tanDeg dep
      let dn := ground_distance * trig.cosDeg total_target_yaw_deg
      let de := ground_distance * trig.sinDeg total_target_yaw_deg
      let dLat := dn / 6378137
      let dLon := de / (6378137 * trig.cosDeg telemetry.lat)
      some (telemetry.lat + trig.degOfRad dLat, telemetry.lon + trig.degOfRad dLon)

/-! # Claims -/

/-! ## C1 — link-health monitor -/

/-- While the transport stays disconnected after the threshold has been
reached, every sufficiently-spaced check keeps reporting fatal: the fatal path
never updates `last_check_time`, so the interval guard keeps firing and the
accumulated duration can only grow. -/
theorem c1_run_aux : ∀ (times : List ℚ) (cfg : ConnCfg) (s : ConnState),
    0 ≤ cfg.check_interval →
    cfg.max_disconnect_time ≤ s.disconnect_duration →
    (∀ t ∈ times, cfg.check_interval < t - s.last_check_time) →
    (checkRun cfg s (times.map (fun t => (t, false)))).1
      = List.replicate times.length false := by
  intro times
  induction times with
  | nil => intro cfg s _ _ _; rfl
  | cons t ts ih =>
    intro cfg s hint hmax htimes
    have helapsed : cfg.check_interval < t - s.last_check_time :=
      htimes t (List.mem_cons_self t ts)
    have hd : cfg.max_disconnect_time ≤
        s.disconnect_duration + (t - s.last_check_time) := by
      have h0 : (0 : ℚ) ≤ t - s.last_check_time := le_of_lt (lt_of_le_of_lt hint helapsed)
      linarith
    have hstep : check_persistent_disconnect cfg s t false =
        (false, { s with disconnect_duration :=
                    s.disconnect_duration + (t - s.last_check_time) }) := by
      simp only [check_persistent_disconnect, if_pos helapsed]
      simp [hd]
    simp only [List.map_cons, checkRun, hstep, List.length_cons,
      List.replicate_succ]
    refine congrArg (List.cons false) ?_
    exact ih cfg _ hint hd (fun u hu => htimes u (List.mem_cons_of_mem t hu))

/-- C1 (amended): once `disconnect_duration ≥ max_disconnect_time`, every later
sufficiently-spaced check made while the transport is still *disconnected*
reports fatal (the fatal path leaves `last_check_time` unchanged, so the
interval guard keeps firing and the accumulated duration keeps growing); but
the monitor state is not terminal: a later check made while the transport is
*connected* resets the accumulated duration to zero and reports healthy, as
does the `_on_connect` callback. -/
theorem c1_link_monitor :
    (∀ (cfg : ConnCfg) (s : ConnState) (times : List ℚ),
        0 ≤ cfg.check_interval →
        cfg.max_disconnect_time ≤ s.disconnect_duration →
        (∀ t ∈ times, cfg.check_interval < t - s.last_check_time) →
        (checkRun cfg s (times.map (fun t => (t, false)))).1
          = List.replicate times.length false) ∧
    (∀ (cfg : ConnCfg) (s : ConnState) (now : ℚ),
        cfg.check_interval < now - s.last_check_time →
        check_persistent_disconnect cfg s now true
          = (true, { last_check_time := now, disconnect_duration := 0 })) ∧
    (∀ now : ℚ, on_connect now
          = { last_check_time := now, disconnect_duration := 0 }) := by
  refine ⟨fun cfg s times h1 h2 h3 => c1_run_aux times cfg s h1 h2 h3,
          fun cfg s now h => ?_, fun now => rfl⟩
  simp [check_persistent_disconnect, if_pos h]

/-- Witness for `c1_link_monitor` at concrete inputs: interval 5, threshold 30,
accumulated duration already 30, checks at times 10 and 20 while disconnected
both report fatal; a connected check at time 10 resets to zero and reports
healthy. -/
theorem c1_link_monitor_witness :
    (checkRun ⟨5, 30⟩ ⟨0, 30⟩ ([(10 : ℚ), 20].map (fun t => (t, false)))).1
      = List.replicate 2 false ∧
    check_persistent_disconnect ⟨5, 30⟩ ⟨0, 30⟩ 10 true = (true, ⟨10, 0⟩) ∧
    on_connect 7 = ⟨(7 : ℚ), 0⟩ := by
  obtain ⟨h1, h2, h3⟩ := c1_link_monitor
  refine ⟨?_, ?_, h3 7⟩
  · have := h1 ⟨5, 30⟩ ⟨0, 30⟩ [10, 20] (by norm_num) (by norm_num)
      (by intro t ht; simp at ht; rcases ht with rfl | rfl <;> norm_num)
    simpa using this
  · exact h2 ⟨5, 30⟩ ⟨0, 30⟩ 10 (by norm_num)

/-- C1 as stated is false: with interval 5 and threshold 30, a disconnected
check at time 40 accumulates duration 40 ≥ 30 and reports fatal, yet the very
next check at time 50 with the transport connected resets the accumulated
duration to zero and reports healthy — the monitor returns to the healthy
state after the threshold was reached. -/
theorem c1_link_monitor_counterexample :
    (check_persistent_disconnect ⟨5, 30⟩ ⟨0, 0⟩ 40 false).1 = false ∧
    (30 : ℚ) ≤ (check_persistent_disconnect ⟨5, 30⟩ ⟨0, 0⟩ 40 false).2.disconnect_duration ∧
    check_persistent_disconnect ⟨5, 30⟩
        (check_persistent_disconnect ⟨5, 30⟩ ⟨0, 0⟩ 40 false).2 50 true
      = (true, ⟨50, 0⟩) := by
  refine ⟨?_, ?_, ?_⟩ <;> (simp only [check_persistent_disconnect]; norm_num)

/-! ## C2 — stop request whose `stop()` raises -/

/-- A key absent from the key list is not found. -/
theorem regGet_eq_none_of_not_mem {β : Type} :
    ∀ (reg : List (String × β)) (key : String),
      key ∉ reg.map Prod.fst → regGet reg key = none := by
  intro reg
  induction reg with
  | nil => intro key _; rfl
  | cons kv rest ih =>
    obtain ⟨k, v⟩ := kv
    intro key hk
    simp only [List.map_cons, List.mem_cons] at hk
    push_neg at hk
    have hne : ¬(k = key) := fun h => hk.1 h.symm
    simp only [regGet, if_neg hne]
    exact ih key hk.2

/-- Deleting a key from a registry with unique keys makes it unaddressable. -/
theorem regGet_regErase {β : Type} :
    ∀ (reg : List (String × β)) (key : String),
      (reg.map Prod.fst).Nodup → regGet (regErase reg key) key = none := by
  intro reg
  induction reg with
  | nil => intro key _; rfl
  | cons kv rest ih =>
    obtain ⟨k, v⟩ := kv
    intro key hnd
    simp only [List.map_cons, List.nodup_cons] at hnd
    by_cases hk : k = key
    · show regGet (if k = key then rest else (k, v) :: regErase rest key) key = none
      rw [if_pos hk]
      subst hk
      exact regGet_eq_none_of_not_mem rest k hnd.1
    · show regGet (if k = key then rest else (k, v) :: regErase rest key) key = none
      rw [if_neg hk]
      simp only [regGet, if_neg hk]
      exact ih key hnd.2

/-- C2 (amended): for a stop request whose id is present in the registry, if
the instance's `stop()` raises then the error is reported as a failure result
and the instance is **not** removed — it remains addressable under its id (the
`del` statement sits after the `stop()` call inside the `try` block, so the
raise skips it).  The instance is removed exactly when `stop()` returns
normally, in which case the result is success and — the registry having unique
keys, as a Python dict does — the id is no longer addressable. -/
theorem c2_stop_failure_keeps_instance :
    (∀ (reg : List (String × OpInst)) (op_id : String) (inst : OpInst),
        regGet reg op_id = some inst →
        inst.stop_raises = true →
        handle_stop_operation reg op_id = (⟨false⟩, reg)) ∧
    (∀ (reg : List (String × OpInst)) (op_id : String) (inst : OpInst),
        regGet reg op_id = some inst →
        inst.stop_raises = false →
        handle_stop_operation reg op_id = (⟨true⟩, regErase reg op_id)) ∧
    (∀ (reg : List (String × OpInst)) (op_id : String),
        (reg.map Prod.fst).Nodup →
        regGet (regErase reg op_id) op_id = none) := by
  refine ⟨?_, ?_, fun reg op_id h => regGet_regErase reg op_id h⟩
  · intro reg op_id inst hget hraise
    simp [handle_stop_operation, hget, hraise]
  · intro reg op_id inst hget hraise
    simp [handle_stop_operation, hget, hraise]

/-- Witness for `c2_stop_failure_keeps_instance` at concrete registries. -/
theorem c2_stop_failure_keeps_instance_witness :
    handle_stop_operation [("a", ⟨true⟩)] "a" = (⟨false⟩, [("a", ⟨true⟩)]) ∧
    handle_stop_operation [("b", ⟨false⟩)] "b" = (⟨true⟩, regErase [("b", ⟨false⟩)] "b") ∧
    regGet (regErase [("b", OpInst.mk false)] "b") "b" = none := by
  obtain ⟨h1, h2, h3⟩ := c2_stop_failure_keeps_instance
  exact ⟨h1 [("a", ⟨true⟩)] "a" ⟨true⟩ (by rfl) rfl,
         h2 [("b", ⟨false⟩)] "b" ⟨false⟩ (by rfl) rfl,
         h3 [("b", ⟨false⟩)] "b" (by simp)⟩

/-- C2 as stated is false: for the registry `{"a" ↦ instance whose stop()
raises}`, `handle_stop_operation` reports failure but the instance is *still
present* — it was not removed and remains addressable under `"a"`. -/
theorem c2_stop_failure_keeps_instance_counterexample :
    (handle_stop_operation [("a", ⟨true⟩)] "a").1.success = false ∧
    regGet (handle_stop_operation [("a", ⟨true⟩)] "a").2 "a" = some ⟨true⟩ := by
  constructor <;> rfl

/-! ## C3 — start requests for the bundled operation classes always fail -/

/-- C3: when the requested operation name resolves (through the operation map
and the dynamic class loader) to either bundled operation class, the start
handler returns a failure result and leaves the registry of active operations
unchanged: the call site supplies 5 positional arguments
(`mav_copter, op_id, operation_output_queue, params, logger`) while both
constructors accept 4 (`mav_handler, output_queue, params, logger`), so
instantiation raises `TypeError`, which the handler converts to
`{'success': False, ...}` without registering anything.  This holds whatever
the link-readiness flag and whatever each class's `start()` would return. -/
theorem c3_bundled_start_always_fails
    (op_map : String → Option String) (class_of : String → Option OpClass)
    (mav_ready : Bool) (reg : List (String × OpClass))
    (op_name op_id class_path : String) (start_ok : Bool)
    (hmap : op_map op_name = some class_path)
    (hclass : class_of class_path = some (OperationColorTracker_class start_ok) ∨
              class_of class_path = some (OperationSerialListener_class start_ok)) :
    (handle_start_operation op_map class_of mav_ready reg op_name op_id).1.success
        = false ∧
    (handle_start_operation op_map class_of mav_ready reg op_name op_id).2 = reg := by
  have harity : ∀ c : OpClass, c.init_arity = 4 →
      class_of class_path = some c →
      (handle_start_operation op_map class_of mav_ready reg op_name op_id).1.success
          = false ∧
      (handle_start_operation op_map class_of mav_ready reg op_name op_id).2 = reg := by
    intro c hc hcl
    have hinst : instantiate_with c 5 = none := by simp [instantiate_with, hc]
    simp only [handle_start_operation, hmap, hcl, hinst]
    cases mav_ready <;> simp
  rcases hclass with h | h
  · exact harity _ rfl h
  · exact harity _ rfl h

/-- Witness for `c3_bundled_start_always_fails` at a concrete operation map,
class loader, registry and request. -/
theorem c3_bundled_start_always_fails_witness :
    (handle_start_operation
        (fun n => if n = "color_tracker"
                  then some "operations.color_tracker.OperationColorTracker"
                  else none)
        (fun p => if p = "operations.color_tracker.OperationColorTracker"
                  then some (OperationColorTracker_class true)
                  else none)
        true [] "color_tracker" "op-1").1.success = false ∧
    (handle_start_operation
        (fun n => if n = "color_tracker"
                  then some "operations.color_tracker.OperationColorTracker"
                  else none)
        (fun p => if p = "operations.color_tracker.OperationColorTracker"
                  then some (OperationColorTracker_class true)
                  else none)
        true [] "color_tracker" "op-1").2 = [] :=
  c3_bundled_start_always_fails _ _ true [] "color_tracker" "op-1"
    "operations.color_tracker.OperationColorTracker" true (by rfl) (Or.inl (by rfl))

/-! ## C5 — bounded-FIFO buffer -/

/-- The buffer produced by the non-fault path of `add_message`, unfolded. -/
theorem add_message_false_buffer {α : Type} (size : ℕ) (st : BufferState α)
    (m : α) (now : ℚ) :
    (add_message size st m now false).2.buffer =
      if (st.buffer ++ [m]).length > size then (st.buffer ++ [m]).tail
      else st.buffer ++ [m] := rfl

/-- The timestamp produced by the non-fault path of `add_message`. -/
theorem add_message_false_time {α : Type} (size : ℕ) (st : BufferState α)
    (m : α) (now : ℚ) :
    (add_message size st m now false).2.last_msg_time = now := rfl

/-- The boolean returned by the non-fault path of `add_message`. -/
theorem add_message_false_fst {α : Type} (size : ℕ) (st : BufferState α)
    (m : α) (now : ℚ) :
    (add_message size st m now false).1 =
      decide ((add_message size st m now false).2.buffer.length ≥ size) := rfl

/-- One `add_message` call keeps the length within capacity. -/
theorem add_message_len_le {α : Type} (size : ℕ) (st : BufferState α)
    (m : α) (now : ℚ) (fault : Bool) (h : st.buffer.length ≤ size) :
    (add_message size st m now fault).2.buffer.length ≤ size := by
  cases fault with
  | true => exact h
  | false =>
    rw [add_message_false_buffer]
    by_cases hc : (st.buffer ++ [m]).length > size
    · rw [if_pos hc, List.length_tail]
      simp only [List.length_append, List.length_singleton] at hc ⊢
      omega
    · rw [if_neg hc]
      simp only [List.length_append, List.length_singleton] at hc ⊢
      omega

/-- C5: (1) from any in-capacity state — in particular a fresh empty buffer —
the buffer length never exceeds the configured capacity across any sequence of
`add_message` calls; (2) an append to a full (non-degenerate) buffer evicts
exactly the oldest record, preserving the arrival order of the rest, and
leaves the buffer at capacity; (3) an append below capacity evicts nothing;
(4) a non-fault call returns `True` exactly when the buffer holds `capacity`
records after the append; (5) a record that cannot be appended (internal
fault, the `except` path) leaves the state unchanged and returns `False`
rather than raising. -/
theorem c5_bounded_fifo_buffer :
    (∀ (α : Type) (size : ℕ) (st0 : BufferState α) (ops : List (α × ℚ × Bool)),
        st0.buffer.length ≤ size →
        (addRun size st0 ops).buffer.length ≤ size) ∧
    (∀ (α : Type) (size : ℕ) (st : BufferState α) (m : α) (now : ℚ),
        st.buffer.length = size → 0 < size →
        (add_message size st m now false).2.buffer = st.buffer.tail ++ [m] ∧
        (add_message size st m now false).2.buffer.length = size) ∧
    (∀ (α : Type) (size : ℕ) (st : BufferState α) (m : α) (now : ℚ),
        st.buffer.length < size →
        (add_message size st m now false).2.buffer = st.buffer ++ [m]) ∧
    (∀ (α : Type) (size : ℕ) (st : BufferState α) (m : α) (now : ℚ),
        st.buffer.length ≤ size →
        ((add_message size st m now false).1 = true ↔
          (add_message size st m now false).2.buffer.length = size)) ∧
    (∀ (α : Type) (size : ℕ) (st : BufferState α) (m : α) (now : ℚ),
        add_message size st m now true = (false, st)) := by
  refine ⟨?_, ?_, ?_, ?_, fun α size st m now => rfl⟩
  · intro α size st0 ops
    induction ops generalizing st0 with
    | nil => intro h; exact h
    | cons op rest ih =>
      intro h
      obtain ⟨m, now, fault⟩ := op
      exact ih _ (add_message_len_le size st0 m now fault h)
  · intro α size st m now hfull hpos
    have hc : (st.buffer ++ [m]).length > size := by
      simp only [List.length_append, List.length_singleton]
      omega
    have htail : (st.buffer ++ [m]).tail = st.buffer.tail ++ [m] := by
      cases hb : st.buffer with
      | nil => rw [hb] at hfull; simp at hfull; omega
      | cons a as => rfl
    constructor
    · rw [add_message_false_buffer, if_pos hc, htail]
    · rw [add_message_false_buffer, if_pos hc, List.length_tail]
      simp only [List.length_append, List.length_singleton]
      omega
  · intro α size st m now hlt
    have hc : ¬((st.buffer ++ [m]).length > size) := by
      simp only [List.length_append, List.length_singleton]
      omega
    rw [add_message_false_buffer, if_neg hc]
  · intro α size st m now hle
    rw [add_message_false_fst]
    have hlen : (add_message size st m now false).2.buffer.length ≤ size :=
      add_message_len_le size st m now false hle
    simp only [decide_eq_true_eq]
    omega

/-- Witness for `c5_bounded_fifo_buffer` with capacity 2: a run of three
appends stays within capacity; appending 3 to the full buffer `[1, 2]` evicts
the oldest giving `[2, 3]`; appending 4 to `[1]` evicts nothing; the return
value signals capacity-reached; the fault path returns `False` unchanged. -/
theorem c5_bounded_fifo_buffer_witness :
    (addRun 2 (⟨[], 0⟩ : BufferState ℕ)
        [(1, 0, false), (2, 0, false), (3, 0, false)]).buffer.length ≤ 2 ∧
    (add_message 2 (⟨[1, 2], 0⟩ : BufferState ℕ) 3 0 false).2.buffer
        = [1, 2].tail ++ [3] ∧
    (add_message 2 (⟨[1], 0⟩ : BufferState ℕ) 4 0 false).2.buffer = [1] ++ [4] ∧
    ((add_message 2 (⟨[1], 0⟩ : BufferState ℕ) 4 0 false).1 = true ↔
      (add_message 2 (⟨[1], 0⟩ : BufferState ℕ) 4 0 false).2.buffer.length = 2) ∧
    add_message 2 (⟨[1], 0⟩ : BufferState ℕ) 4 0 true = (false, ⟨[1], 0⟩) := by
  obtain ⟨h1, h2, h3, h4, h5⟩ := c5_bounded_fifo_buffer
  exact ⟨h1 ℕ 2 ⟨[], 0⟩ [(1, 0, false), (2, 0, false), (3, 0, false)] (by decide),
         (h2 ℕ 2 ⟨[1, 2], 0⟩ 3 0 (by decide) (by decide)).1,
         h3 ℕ 2 ⟨[1], 0⟩ 4 0 (by decide),
         h4 ℕ 2 ⟨[1], 0⟩ 4 0 (by decide),
         h5 ℕ 2 ⟨[1], 0⟩ 4 0⟩

/-! ## C9 — flush only when connected; failure keeps the buffer -/

/-- C9: (1) a payload is handed to `emit` only when the transport is connected
and the buffer is non-empty; (2) whenever `emit` would raise, the buffer state
— content, order and timestamp — is left exactly as it was, for retry on the
next flush trigger; (3) when connected with a non-empty buffer and a
successful emission, the emitted payload is the full ordered buffer content,
and only then is the buffer cleared with its last-arrival timestamp reset to
the flush time; (4) conversely, any call that changes the buffer state was a
connected, successful emission that left the cleared state. -/
theorem flush_cond_true {α : Type} (connected emit_ok : Bool)
    (st : BufferState α) (now : ℚ)
    (h : (st.buffer.isEmpty || !connected) = true) :
    flush_buffer connected emit_ok st now = (true, st, none) := by
  simp [flush_buffer, h]

theorem flush_cond_false_emit_ok {α : Type} (connected : Bool)
    (st : BufferState α) (now : ℚ)
    (h : (st.buffer.isEmpty || !connected) = false) :
    flush_buffer connected true st now
      = (true, clear_buffer st now, some st.buffer) := by
  simp [flush_buffer, h]

theorem flush_cond_false_emit_fails {α : Type} (connected : Bool)
    (st : BufferState α) (now : ℚ)
    (h : (st.buffer.isEmpty || !connected) = false) :
    flush_buffer connected false st now = (false, st, some st.buffer) := by
  simp [flush_buffer, h]

theorem flush_cond_elim (a c : Bool) (h : (a || !c) = false) :
    a = false ∧ c = true := by
  cases a <;> cases c <;> simp_all

theorem isEmpty_false_of_ne_nil {α : Type} (l : List α) (h : l ≠ []) :
    l.isEmpty = false := by
  cases l with
  | nil => exact absurd rfl h
  | cons a as => rfl

theorem ne_nil_of_isEmpty_false {α : Type} (l : List α)
    (h : l.isEmpty = false) : l ≠ [] := by
  cases l with
  | nil => simp at h
  | cons a as => simp

theorem c9_flush_only_when_connected :
    (∀ (α : Type) (connected emit_ok : Bool) (st : BufferState α) (now : ℚ),
        (flush_buffer connected emit_ok st now).2.2 ≠ none →
        connected = true ∧ st.buffer ≠ []) ∧
    (∀ (α : Type) (connected : Bool) (st : BufferState α) (now : ℚ),
        (flush_buffer connected false st now).2.1 = st) ∧
    (∀ (α : Type) (st : BufferState α) (now : ℚ),
        st.buffer ≠ [] →
        flush_buffer true true st now = (true, ⟨[], now⟩, some st.buffer)) ∧
    (∀ (α : Type) (connected emit_ok : Bool) (st : BufferState α) (now : ℚ),
        (flush_buffer connected emit_ok st now).2.1 ≠ st →
        connected = true ∧ emit_ok = true ∧
        (flush_buffer connected emit_ok st now).2.1 = clear_buffer st now) := by
  refine ⟨?_, ?_, ?_, ?_⟩
  · intro α connected emit_ok st now h
    by_cases hcond : (st.buffer.isEmpty || !connected) = true
    · rw [flush_cond_true connected emit_ok st now hcond] at h
      exact absurd rfl h
    · have hcf := flush_cond_elim _ _ (Bool.eq_false_iff.mpr hcond)
      exact ⟨hcf.2, ne_nil_of_isEmpty_false _ hcf.1⟩
  · intro α connected st now
    by_cases hcond : (st.buffer.isEmpty || !connected) = true
    · rw [flush_cond_true connected false st now hcond]
    · rw [flush_cond_false_emit_fails connected st now
        (Bool.eq_false_iff.mpr hcond)]
  · intro α st now hne
    have hcond : (st.buffer.isEmpty || !true) = false := by
      simp [isEmpty_false_of_ne_nil st.buffer hne]
    exact flush_cond_false_emit_ok true st now hcond
  · intro α connected emit_ok st now h
    by_cases hcond : (st.buffer.isEmpty || !connected) = true
    · rw [flush_cond_true connected emit_ok st now hcond] at h
      exact absurd rfl h
    · have hcf := flush_cond_elim _ _ (Bool.eq_false_iff.mpr hcond)
      cases emit_ok with
      | false =>
        rw [flush_cond_false_emit_fails connected st now
          (Bool.eq_false_iff.mpr hcond)] at h
        exact absurd rfl h
      | true =>
        refine ⟨hcf.2, rfl, ?_⟩
        rw [flush_cond_false_emit_ok connected st now
          (Bool.eq_false_iff.mpr hcond)]

/-- Witness for `c9_flush_only_when_connected` at a concrete two-record
buffer. -/
theorem c9_flush_only_when_connected_witness :
    (true = true ∧ ([5, 6] : List ℕ) ≠ []) ∧
    (flush_buffer true false (⟨[5, 6], 0⟩ : BufferState ℕ) 9).2.1 = ⟨[5, 6], 0⟩ ∧
    flush_buffer true true (⟨[5, 6], 0⟩ : BufferState ℕ) 9
      = (true, ⟨[], 9⟩, some [5, 6]) := by
  obtain ⟨h1, h2, h3, _⟩ := c9_flush_only_when_connected
  refine ⟨h1 ℕ true true ⟨[5, 6], 0⟩ 9 ?_, h2 ℕ true ⟨[5, 6], 0⟩ 9,
          h3 ℕ ⟨[5, 6], 0⟩ 9 (by decide)⟩
  rw [h3 ℕ ⟨[5, 6], 0⟩ 9 (by decide)]
  simp

/-! ## C10 — documented serial format never parses -/

/-- `str.split(sep)` never yields an empty list. -/
theorem splitChar_ne_nil (sep : Char) : ∀ s, splitChar sep s ≠ [] := by
  intro s
  cases s with
  | nil => simp [splitChar]
  | cons c rest =>
    simp only [splitChar]
    by_cases h : c = sep
    · simp [h]
    · rw [if_neg h]
      cases hsr : splitChar sep rest with
      | nil => simp
      | cons g gs => simp

/-- `str.split(sep, 1)` on a string not containing the separator yields the
one-element list. -/
theorem splitOnce_no_sep (sep : Char) (s : List Char) (h : sep ∉ s) :
    splitOnce sep s = [s] := by
  simp [splitOnce, h]

/-- C10: any line in the documented `key=value,key=value` format — after
stripping, non-empty, with every comma-separated pair containing `'='` and no
`':'` — is rejected by `_parse_line` (returns `None`): the pair filter tests
for `'='` but the two-element unpacking `key, value = pair.split(':', 1)`
gets a one-element list and raises `ValueError`, which the enclosing
`except (ValueError, IndexError)` converts into `None`.  No line of the
documented format is ever turned into an output report. -/
theorem c10_documented_format_never_parses
    (float_of : List Char → Option ℚ) (line : List Char)
    (hne : stripChars line ≠ [])
    (hpairs : ∀ p ∈ splitChar ',' (stripChars line), '=' ∈ p ∧ ':' ∉ p) :
    parse_line float_of line = none := by
  cases hsp : splitChar ',' (stripChars line) with
  | nil => exact absurd hsp (splitChar_ne_nil ',' _)
  | cons p ps =>
    have hp := hpairs p (hsp ▸ List.mem_cons_self p ps)
    have hbuild : buildDict (p :: ps) [] = .error () := by
      simp only [buildDict, if_pos hp.1]
      rw [splitOnce_no_sep ':' p hp.2]
    have hie : (stripChars line).isEmpty = false :=
      isEmpty_false_of_ne_nil _ hne
    simp only [parse_line, hie, hsp, hbuild]
    rfl

/-- Witness for `c10_documented_format_never_parses`: the documented example
fragment `type=x` parses to `None`. -/
theorem c10_documented_format_never_parses_witness :
    parse_line (fun _ => none) ['t', 'y', 'p', 'e', '=', 'x'] = none := by
  apply c10_documented_format_never_parses
  · decide
  · decide

/-! ## C8 — geodetic guards and silent filtering -/

/-- C8: the geodetic projection returns no fix whenever the vehicle altitude
is not strictly above 0.5 m or the computed depression angle is not strictly
above 1.0 degree (and being a total function it raises nothing); and a
detection whose projection is undefined is discarded at the top of the
detection loop — before association — leaving the tracked set, the fresh-id
counter and the updated-this-frame set all unchanged, so it never creates or
updates a target. -/
theorem c8_geodetic_undefined_filtered :
    (∀ (trig : TrigModel) (frame : ℚ × ℚ) (px : Pixel) (telemetry : Telemetry),
        telemetry.alt ≤ 1 / 2 ∨ depression_angle_deg frame px telemetry ≤ 1 →
        calculate_target_gps trig frame px telemetry = none) ∧
    (∀ (cfg : TMConfig) (gpsOf : Pixel → Option Gps) (acc : CycleAcc) (p : Pixel),
        gpsOf p = none → processDetection cfg gpsOf acc p = acc) := by
  constructor
  · intro trig frame px telemetry h
    rcases h with halt | hdep
    · simp only [calculate_target_gps]
      rw [if_pos halt]
    · simp only [calculate_target_gps]
      by_cases halt : telemetry.alt ≤ 1 / 2
      · rw [if_pos halt]
      · rw [if_neg halt, if_pos hdep]
  · intro cfg gpsOf acc p h
    simp [processDetection, h]

/-- Witness for `c8_geodetic_undefined_filtered`: altitude 0.3 m (the spec's
own test vector) yields an undefined fix, and a detection with an undefined
fix leaves the cycle state untouched. -/
theorem c8_geodetic_undefined_filtered_witness :
    calculate_target_gps ⟨fun _ => 0, fun _ => 0, fun _ => 0, fun _ => 0⟩
        (480, 640) ((320 : ℚ), (240 : ℚ))
        ⟨3 / 10, 0, 0, 0, 60, 45, 0, 0⟩ = none ∧
    processDetection ⟨10, 100, 50⟩ (fun _ => none) ⟨⟨[], 0⟩, []⟩
        ((320 : ℚ), (240 : ℚ)) = ⟨⟨[], 0⟩, []⟩ := by
  obtain ⟨h1, h2⟩ := c8_geodetic_undefined_filtered
  exact ⟨h1 _ _ _ _ (Or.inl (by norm_num)), h2 _ _ _ _ rfl⟩

/-! ## Target-manager infrastructure -/

theorem targetUpdate_id (t : Target) (p : Pixel) (g : Gps) :
    (targetUpdate t p g).id = t.id := rfl

theorem targetUpdate_is_reported (t : Target) (p : Pixel) (g : Gps) :
    (targetUpdate t p g).is_reported = t.is_reported := rfl

theorem targetUpdate_conf_frames (t : Target) (p : Pixel) (g : Gps) :
    (targetUpdate t p g).conf_frames = t.conf_frames := rfl

theorem targetUpdate_counter (t : Target) (p : Pixel) (g : Gps) :
    (targetUpdate t p g).confirmation_counter
      = if t.confirmation_counter ≤ t.conf_frames
        then t.confirmation_counter + 1 else t.confirmation_counter := rfl

theorem ageOne_id (upd : List ℕ) (t : Target) : (ageOne upd t).id = t.id := by
  unfold ageOne; split <;> rfl

theorem ageOne_is_reported (upd : List ℕ) (t : Target) :
    (ageOne upd t).is_reported = t.is_reported := by
  unfold ageOne; split <;> rfl

theorem ageOne_counter (upd : List ℕ) (t : Target) :
    (ageOne upd t).confirmation_counter = t.confirmation_counter := by
  unfold ageOne; split <;> rfl

theorem ageOne_conf_frames (upd : List ℕ) (t : Target) :
    (ageOne upd t).conf_frames = t.conf_frames := by
  unfold ageOne; split <;> rfl

theorem ageOne_gps (upd : List ℕ) (t : Target) :
    (ageOne upd t).gps_coords = t.gps_coords := by
  unfold ageOne; split <;> rfl

theorem markOne_id (cfg : TMConfig) (t : Target) : (markOne cfg t).id = t.id := by
  unfold markOne; split <;> rfl

theorem markOne_counter (cfg : TMConfig) (t : Target) :
    (markOne cfg t).confirmation_counter = t.confirmation_counter := by
  unfold markOne; split <;> rfl

theorem markOne_conf_frames (cfg : TMConfig) (t : Target) :
    (markOne cfg t).conf_frames = t.conf_frames := by
  unfold markOne; split <;> rfl

theorem markOne_frames_unseen (cfg : TMConfig) (t : Target) :
    (markOne cfg t).frames_unseen = t.frames_unseen := by
  unfold markOne; split <;> rfl

theorem markOne_is_reported (cfg : TMConfig) (t : Target) :
    (markOne cfg t).is_reported = (t.is_reported || willReport cfg t) := by
  unfold markOne willReport
  cases h : t.is_reported <;> split <;> simp_all [willReport]

/-- The second loop of `TargetManager.update`, characterised: the resulting
targets are the aged-then-marked originals (in order), and the reports are
exactly the aged targets passing the reporting guard, in list order. -/
theorem ageAndReport_eq (cfg : TMConfig) (upd : List ℕ) :
    ∀ ts : List Target,
      ageAndReport cfg upd ts
        = (ts.map (fun t => markOne cfg (ageOne upd t)),
           ((ts.map (ageOne upd)).filter (fun t => willReport cfg t)).map mkReport) := by
  intro ts
  induction ts with
  | nil => rfl
  | cons t ts ih =>
    simp only [ageAndReport, ih, List.map_cons, List.filter_cons]
    by_cases h : willReport cfg (ageOne upd t)
    · simp [markOne, h]
    · simp [markOne, h]

/-- A pointwise target property stable under match-update and satisfied by
newly created targets survives the whole detection loop. -/
theorem processDetection_preserves (P : Target → Prop) (cfg : TMConfig)
    (gpsOf : Pixel → Option Gps)
    (hupd : ∀ (t : Target) (p : Pixel) (g : Gps), P t → P (targetUpdate t p g))
    (hnew : ∀ (nid : ℕ) (p : Pixel) (g : Gps), P (newTarget cfg nid p g))
    (acc : CycleAcc) (p : Pixel) (h : ∀ t ∈ acc.st.targets, P t) :
    ∀ t ∈ (processDetection cfg gpsOf acc p).st.targets, P t := by
  unfold processDetection
  cases hg : gpsOf p with
  | none => exact h
  | some g =>
    cases hf : findClosestTarget cfg acc.st.targets p with
    | some tid =>
      intro t' ht'
      simp only [List.mem_map] at ht'
      obtain ⟨t, ht, rfl⟩ := ht'
      by_cases hid : t.id = tid
      · rw [if_pos hid]; exact hupd t p g (h t ht)
      · rw [if_neg hid]; exact h t ht
    | none =>
      intro t' ht'
      simp only [List.mem_append, List.mem_singleton] at ht'
      rcases ht' with ht' | rfl
      · exact h t' ht'
      · exact hnew acc.st.next_id p g

/-- `processDetection_preserves`, iterated over the detection list. -/
theorem detectFold_preserves (P : Target → Prop) (cfg : TMConfig)
    (gpsOf : Pixel → Option Gps)
    (hupd : ∀ (t : Target) (p : Pixel) (g : Gps), P t → P (targetUpdate t p g))
    (hnew : ∀ (nid : ℕ) (p : Pixel) (g : Gps), P (newTarget cfg nid p g)) :
    ∀ (ds : List Pixel) (acc : CycleAcc), (∀ t ∈ acc.st.targets, P t) →
      ∀ t ∈ (ds.foldl (processDetection cfg gpsOf) acc).st.targets, P t := by
  intro ds
  induction ds with
  | nil => intro acc h; exact h
  | cons d ds ih =>
    intro acc h
    exact ih (processDetection cfg gpsOf acc d)
      (processDetection_preserves P cfg gpsOf hupd hnew acc d h)

/-- A pointwise target property stable under all four per-target
transformations is preserved by a full update cycle. -/
theorem tmUpdate_preserves (P : Target → Prop) (cfg : TMConfig)
    (gpsOf : Pixel → Option Gps)
    (hupd : ∀ (t : Target) (p : Pixel) (g : Gps), P t → P (targetUpdate t p g))
    (hnew : ∀ (nid : ℕ) (p : Pixel) (g : Gps), P (newTarget cfg nid p g))
    (hage : ∀ (upd : List ℕ) (t : Target), P t → P (ageOne upd t))
    (hmark : ∀ t : Target, P t → P (markOne cfg t))
    (st : TMState) (ds : List Pixel) (h : ∀ t ∈ st.targets, P t) :
    ∀ t ∈ (tmUpdate cfg gpsOf st ds).1.targets, P t := by
  intro t' ht'
  have hd := detectFold_preserves P cfg gpsOf hupd hnew ds ⟨st, []⟩ h
  simp only [tmUpdate] at ht'
  rw [ageAndReport_eq] at ht'
  simp only [evictOld, List.mem_filter, List.mem_map] at ht'
  obtain ⟨⟨t, ht, rfl⟩, -⟩ := ht'
  exact hmark _ (hage _ _ (hd t ht))

/-- Pointwise preservation over a whole run of update cycles. -/
theorem tmRun_preserves (P : Target → Prop) (cfg : TMConfig)
    (gpsOf : Pixel → Option Gps)
    (hupd : ∀ (t : Target) (p : Pixel) (g : Gps), P t → P (targetUpdate t p g))
    (hnew : ∀ (nid : ℕ) (p : Pixel) (g : Gps), P (newTarget cfg nid p g))
    (hage : ∀ (upd : List ℕ) (t : Target), P t → P (ageOne upd t))
    (hmark : ∀ t : Target, P t → P (markOne cfg t)) :
    ∀ (cycles : List (List Pixel)) (st : TMState), (∀ t ∈ st.targets, P t) →
      ∀ t ∈ (tmRun cfg gpsOf st cycles).1.targets, P t := by
  intro cycles
  induction cycles with
  | nil => intro st h; exact h
  | cons ds rest ih =>
    intro st h
    exact ih (tmUpdate cfg gpsOf st ds).1
      (tmUpdate_preserves P cfg gpsOf hupd hnew hage hmark st ds h)

/-! ## C6 — eviction rule -/

/-- C6 (amended): in every update cycle a tracked target is removed from the
active set exactly when its (post-increment) frames-unseen counter has
**reached or exceeded** the unseen threshold (the list comprehension keeps
`t.frames_unseen < unseen_frames_threshold`, so removal happens at `≥`, not
only at strictly-greater as the claim stated); removal emits nothing into the
output sink — all reports of the cycle come from the age-and-report pass that
precedes the filter — and the surviving targets are exactly those aged/marked
records, unchanged, so eviction never clears a target's reported status. -/
theorem c6_eviction_at_threshold (cfg : TMConfig) (gpsOf : Pixel → Option Gps)
    (st : TMState) (ds : List Pixel) :
    (tmUpdate cfg gpsOf st ds).2
      = (ageAndReport cfg (detectPhase cfg gpsOf st ds).updated
          (detectPhase cfg gpsOf st ds).st.targets).2 ∧
    (∀ t ∈ (ageAndReport cfg (detectPhase cfg gpsOf st ds).updated
              (detectPhase cfg gpsOf st ds).st.targets).1,
        (t ∈ (tmUpdate cfg gpsOf st ds).1.targets ↔
          t.frames_unseen < cfg.unseen_frames_threshold)) ∧
    (∀ t ∈ (tmUpdate cfg gpsOf st ds).1.targets,
        t ∈ (ageAndReport cfg (detectPhase cfg gpsOf st ds).updated
              (detectPhase cfg gpsOf st ds).st.targets).1) := by
  refine ⟨rfl, ?_, ?_⟩
  · intro t ht
    show t ∈ evictOld cfg _ ↔ _
    simp only [evictOld, List.mem_filter, decide_eq_true_eq]
    exact ⟨fun h => h.2, fun h => ⟨ht, h⟩⟩
  · intro t ht
    have : t ∈ evictOld cfg (ageAndReport cfg (detectPhase cfg gpsOf st ds).updated
        (detectPhase cfg gpsOf st ds).st.targets).1 := ht
    simp only [evictOld, List.mem_filter] at this
    exact this.1

/-- Witness for `c6_eviction_at_threshold`: a cycle with no detections over a
single unreported target (threshold 2) keeps the target — its aged
frames-unseen value 1 is below the threshold — and emits exactly the
age-and-report pass's reports. -/
theorem c6_eviction_at_threshold_witness :
    (tmUpdate ⟨10, 100, 2⟩ (fun _ => none)
        ⟨[⟨0, (0, 0), (0, 0), 1, 0, false, 10⟩], 1⟩ []).2
      = (ageAndReport ⟨10, 100, 2⟩
          (detectPhase ⟨10, 100, 2⟩ (fun _ => none)
            ⟨[⟨0, (0, 0), (0, 0), 1, 0, false, 10⟩], 1⟩ []).updated
          (detectPhase ⟨10, 100, 2⟩ (fun _ => none)
            ⟨[⟨0, (0, 0), (0, 0), 1, 0, false, 10⟩], 1⟩ []).st.targets).2 ∧
    ((⟨0, (0, 0), (0, 0), 1, 1, false, 10⟩ : Target) ∈
        (tmUpdate ⟨10, 100, 2⟩ (fun _ => none)
          ⟨[⟨0, (0, 0), (0, 0), 1, 0, false, 10⟩], 1⟩ []).1.targets ↔
      (⟨0, (0, 0), (0, 0), 1, 1, false, 10⟩ : Target).frames_unseen < (2 : ℤ)) := by
  have h := c6_eviction_at_threshold ⟨10, 100, 2⟩ (fun _ => none)
    ⟨[⟨0, (0, 0), (0, 0), 1, 0, false, 10⟩], 1⟩ []
  refine ⟨h.1, ?_⟩
  have hmem : (⟨0, (0, 0), (0, 0), 1, 1, false, 10⟩ : Target) ∈
      (ageAndReport ⟨10, 100, 2⟩
        (detectPhase ⟨10, 100, 2⟩ (fun _ => none)
          ⟨[⟨0, (0, 0), (0, 0), 1, 0, false, 10⟩], 1⟩ []).updated
        (detectPhase ⟨10, 100, 2⟩ (fun _ => none)
          ⟨[⟨0, (0, 0), (0, 0), 1, 0, false, 10⟩], 1⟩ []).st.targets).1 := by
    show (⟨0, (0, 0), (0, 0), 1, 1, false, 10⟩ : Target) ∈
      [(⟨0, (0, 0), (0, 0), 1, 1, false, 10⟩ : Target)]
    exact List.mem_singleton_self _
  exact h.2.1 _ hmem

/-- C6 as stated ("strictly greater") is false: with unseen threshold 1, a
cycle with no detections ages the sole target's frames-unseen counter to
exactly 1 — not strictly greater than the threshold — yet the target is
removed from the active set. -/
theorem c6_eviction_at_threshold_counterexample :
    (tmUpdate ⟨10, 100, 1⟩ (fun _ => none)
        ⟨[⟨0, (0, 0), (0, 0), 1, 0, false, 10⟩], 1⟩ []).1.targets = [] ∧
    (ageAndReport ⟨10, 100, 1⟩
        (detectPhase ⟨10, 100, 1⟩ (fun _ => none)
          ⟨[⟨0, (0, 0), (0, 0), 1, 0, false, 10⟩], 1⟩ []).updated
        (detectPhase ⟨10, 100, 1⟩ (fun _ => none)
          ⟨[⟨0, (0, 0), (0, 0), 1, 0, false, 10⟩], 1⟩ []).st.targets).1
      = [⟨0, (0, 0), (0, 0), 1, 1, false, 10⟩] ∧
    ¬((1 : ℤ) > 1) := by
  refine ⟨rfl, rfl, by norm_num⟩

/-! ## C7 — confirmation counter -/

/-- C7 (amended): the confirmation counter changes only in `Target.update`
(i.e. only in cycles where the target is matched to a new detection), where it
increases by exactly one while it is still `≤` the per-target confirmation
threshold; it never decreases; the aging and reporting passes leave it
untouched; and over any run from a fresh manager with a non-negative
configured threshold it never exceeds `confirmationThreshold + 1` — one more
than the claim's stated cap, because the increment guard is `<=`, letting the
counter step from `threshold` to `threshold + 1`. -/
theorem c7_confirmation_counter :
    (∀ (t : Target) (p : Pixel) (g : Gps),
        (targetUpdate t p g).confirmation_counter
          = if t.confirmation_counter ≤ t.conf_frames
            then t.confirmation_counter + 1 else t.confirmation_counter) ∧
    (∀ (t : Target) (p : Pixel) (g : Gps),
        t.confirmation_counter ≤ (targetUpdate t p g).confirmation_counter) ∧
    (∀ (upd : List ℕ) (t : Target),
        (ageOne upd t).confirmation_counter = t.confirmation_counter) ∧
    (∀ (cfg : TMConfig) (t : Target),
        (markOne cfg t).confirmation_counter = t.confirmation_counter) ∧
    (∀ (cfg : TMConfig) (gpsOf : Pixel → Option Gps)
        (cycles : List (List Pixel)),
        0 ≤ cfg.confirmation_frames →
        ∀ t ∈ (tmRun cfg gpsOf ⟨[], 0⟩ cycles).1.targets,
          t.confirmation_counter ≤ cfg.confirmation_frames + 1) := by
  refine ⟨fun t p g => targetUpdate_counter t p g, ?_, ageOne_counter,
          markOne_counter, ?_⟩
  · intro t p g
    rw [targetUpdate_counter]
    split
    · omega
    · exact le_refl _
  · intro cfg gpsOf cycles hcf
    have hrun := tmRun_preserves
      (fun t => t.conf_frames = cfg.confirmation_frames ∧
                t.confirmation_counter ≤ cfg.confirmation_frames + 1)
      cfg gpsOf
      (by
        intro t p g h
        refine ⟨h.1, ?_⟩
        rw [targetUpdate_counter]
        split
        · omega
        · exact h.2)
      (by
        intro nid p g
        exact ⟨rfl, by simpa [newTarget] using by omega⟩)
      (by
        intro upd t h
        refine ⟨?_, ?_⟩
        · rw [ageOne_conf_frames]; exact h.1
        · rw [ageOne_counter]; exact h.2)
      (by
        intro t h
        refine ⟨?_, ?_⟩
        · rw [markOne_conf_frames]; exact h.1
        · rw [markOne_counter]; exact h.2)
      cycles ⟨[], 0⟩ (by intro t ht; simp at ht)
    intro t ht
    exact (hrun t ht).2

/-- Witness for `c7_confirmation_counter` at concrete inputs. -/
theorem c7_confirmation_counter_witness :
    ((targetUpdate ⟨0, (0, 0), (0, 0), 3, 0, false, 10⟩ (0, 0) (0, 0)).confirmation_counter
      = if (3 : ℤ) ≤ 10 then 3 + 1 else 3) ∧
    ((3 : ℤ) ≤ (targetUpdate ⟨0, (0, 0), (0, 0), 3, 0, false, 10⟩ (0, 0) (0, 0)).confirmation_counter) ∧
    (ageOne [] ⟨0, (0, 0), (0, 0), 3, 0, false, 10⟩).confirmation_counter = 3 ∧
    (markOne ⟨10, 100, 50⟩ ⟨0, (0, 0), (0, 0), 3, 0, false, 10⟩).confirmation_counter = 3 ∧
    (∀ t ∈ (tmRun ⟨10, 100, 50⟩ (fun _ => none) ⟨[], 0⟩ [[((0 : ℚ), (0 : ℚ))]]).1.targets,
        t.confirmation_counter ≤ (10 : ℤ) + 1) := by
  obtain ⟨h1, h2, h3, h4, h5⟩ := c7_confirmation_counter
  exact ⟨h1 _ _ _, h2 ⟨0, (0, 0), (0, 0), 3, 0, false, 10⟩ (0, 0) (0, 0),
         h3 [] _, h4 ⟨10, 100, 50⟩ _,
         h5 ⟨10, 100, 50⟩ (fun _ => none) [[((0 : ℚ), (0 : ℚ))]] (by norm_num)⟩

/-- C7 as stated ("never greater than confirmationThreshold") is false: with
confirmation threshold 1, two cycles of the same single detection leave the
tracked target's confirmation counter at 2 > 1.  (Cycle 1 creates the target
at counter 1; cycle 2 matches it and, since `1 <= 1`, increments to 2.) -/
theorem c7_confirmation_counter_counterexample :
    ((tmRun ⟨1, 100, 50⟩ (fun _ => some ((0 : ℚ), (0 : ℚ))) ⟨[], 0⟩
        [[((0 : ℚ), (0 : ℚ))], [((0 : ℚ), (0 : ℚ))]]).1.targets.map
      Target.confirmation_counter) = [2] ∧
    ¬((2 : ℤ) ≤ 1) := by
  have hfind : findClosestTarget ⟨1, 100, 50⟩
      [⟨0, (0, 0), (0, 0), 1, 1, true, 1⟩] ((0 : ℚ), (0 : ℚ)) = some 0 := by
    simp only [findClosestTarget, List.foldl_cons, List.foldl_nil, distSq]
    norm_num
  have step1 : tmUpdate ⟨1, 100, 50⟩ (fun _ => some ((0 : ℚ), (0 : ℚ))) ⟨[], 0⟩
      [((0 : ℚ), (0 : ℚ))]
      = (⟨[⟨0, (0, 0), (0, 0), 1, 1, true, 1⟩], 1⟩, [⟨0, 0, 0⟩]) := rfl
  have step2 : tmUpdate ⟨1, 100, 50⟩ (fun _ => some ((0 : ℚ), (0 : ℚ)))
      ⟨[⟨0, (0, 0), (0, 0), 1, 1, true, 1⟩], 1⟩ [((0 : ℚ), (0 : ℚ))]
      = (⟨[⟨0, (0, 0), (0, 0), 2, 0, true, 1⟩], 1⟩, []) := by
    simp only [tmUpdate, detectPhase, List.foldl_cons, List.foldl_nil,
      processDetection, hfind]
    rfl
  refine ⟨?_, by norm_num⟩
  simp only [tmRun, step1, step2]
  rfl

/-! ## C4 infrastructure — at-most-once reporting -/

/-- How many reports in `rs` carry the target identity `i`. -/
def reportCount (rs : List Report) (i : ℕ) : ℕ :=
  rs.countP (fun r => r.id = i)

/-- The reporting invariant tying a manager state to the reports emitted so
far: target ids are unique and below the freshness counter, every identity has
been reported at most once, an unreported live target has never been reported,
and identities not yet allocated have never been reported. -/
def Inv (st : TMState) (emitted : List Report) : Prop :=
  (st.targets.map Target.id).Nodup ∧
  (∀ t ∈ st.targets, t.id < st.next_id) ∧
  (∀ i, reportCount emitted i ≤ 1) ∧
  (∀ t ∈ st.targets, t.is_reported = false → reportCount emitted t.id = 0) ∧
  (∀ i, st.next_id ≤ i → reportCount emitted i = 0)

theorem reportCount_append (a b : List Report) (i : ℕ) :
    reportCount (a ++ b) i = reportCount a i + reportCount b i :=
  List.countP_append _ _ _

/-- A list of targets with pairwise-distinct ids mentions any id at most
once. -/
theorem countP_id_le_one : ∀ (l : List Target) (i : ℕ),
    (l.map Target.id).Nodup → l.countP (fun t => t.id = i) ≤ 1 := by
  intro l
  induction l with
  | nil => intro i _; simp
  | cons t ts ih =>
    intro i hnd
    simp only [List.map_cons, List.nodup_cons] at hnd
    rw [List.countP_cons]
    by_cases h : t.id = i
    · have hz : ts.countP (fun t => t.id = i) = 0 := by
        rw [List.countP_eq_zero]
        intro s hs
        simp only [decide_eq_true_eq]
        intro hsi
        exact hnd.1 (by rw [← h] at hsi; rw [← hsi]; exact List.mem_map_of_mem Target.id hs)
      simp [hz, h]
    · have := ih i hnd.2
      simp [h]
      omega

/-- In a list of targets with pairwise-distinct ids, two members with the same
id are the same target. -/
theorem mem_id_eq : ∀ (l : List Target), (l.map Target.id).Nodup →
    ∀ a ∈ l, ∀ b ∈ l, a.id = b.id → a = b := by
  intro l
  induction l with
  | nil => intro _ a ha; exact absurd ha (List.not_mem_nil a)
  | cons t ts ih =>
    intro hnd a ha b hb hab
    simp only [List.map_cons, List.nodup_cons] at hnd
    rcases List.mem_cons.mp ha with ha1 | ha2
    · rcases List.mem_cons.mp hb with hb1 | hb2
      · rw [ha1, hb1]
      · exfalso
        apply hnd.1
        rw [ha1] at hab
        rw [hab]
        exact List.mem_map_of_mem Target.id hb2
    · rcases List.mem_cons.mp hb with hb1 | hb2
      · exfalso
        apply hnd.1
        rw [hb1] at hab
        rw [← hab]
        exact List.mem_map_of_mem Target.id ha2
      · exact ih hnd.2 a ha2 b hb2 hab

theorem nodup_append_singleton {l : List ℕ} {a : ℕ} (h : l.Nodup)
    (ha : a ∉ l) : (l ++ [a]).Nodup := by
  simp [List.nodup_append, h, ha]

theorem processDetection_none (cfg : TMConfig) (gpsOf : Pixel → Option Gps)
    (acc : CycleAcc) (p : Pixel) (hg : gpsOf p = none) :
    processDetection cfg gpsOf acc p = acc := by
  simp [processDetection, hg]

theorem processDetection_match (cfg : TMConfig) (gpsOf : Pixel → Option Gps)
    (acc : CycleAcc) (p : Pixel) (g : Gps) (tid : ℕ) (hg : gpsOf p = some g)
    (hf : findClosestTarget cfg acc.st.targets p = some tid) :
    processDetection cfg gpsOf acc p
      = ⟨⟨acc.st.targets.map
            (fun t => if t.id = tid then targetUpdate t p g else t),
          acc.st.next_id⟩,
         tid :: acc.updated⟩ := by
  simp [processDetection, hg, hf]

theorem processDetection_new (cfg : TMConfig) (gpsOf : Pixel → Option Gps)
    (acc : CycleAcc) (p : Pixel) (g : Gps) (hg : gpsOf p = some g)
    (hf : findClosestTarget cfg acc.st.targets p = none) :
    processDetection cfg gpsOf acc p
      = ⟨⟨acc.st.targets ++ [newTarget cfg acc.st.next_id p g],
          acc.st.next_id + 1⟩,
         acc.updated⟩ := by
  simp [processDetection, hg, hf]

/-- One detection step: target ids stay unique and below the freshness
counter, the counter is monotone, and any unreported target either descends
from an unreported target of the previous state with the same id or is a
fresh creation. -/
theorem processDetection_spec (cfg : TMConfig) (gpsOf : Pixel → Option Gps)
    (acc : CycleAcc) (p : Pixel)
    (hnd : (acc.st.targets.map Target.id).Nodup)
    (hbound : ∀ t ∈ acc.st.targets, t.id < acc.st.next_id) :
    ((processDetection cfg gpsOf acc p).st.targets.map Target.id).Nodup ∧
    (∀ t ∈ (processDetection cfg gpsOf acc p).st.targets,
        t.id < (processDetection cfg gpsOf acc p).st.next_id) ∧
    acc.st.next_id ≤ (processDetection cfg gpsOf acc p).st.next_id ∧
    (∀ t' ∈ (processDetection cfg gpsOf acc p).st.targets,
        t'.is_reported = false →
        (∃ t ∈ acc.st.targets, t.id = t'.id ∧ t.is_reported = false) ∨
          acc.st.next_id ≤ t'.id) := by
  cases hg : gpsOf p with
  | none =>
    rw [processDetection_none cfg gpsOf acc p hg]
    exact ⟨hnd, hbound, le_refl _,
      fun t' ht' hrep => Or.inl ⟨t', ht', rfl, hrep⟩⟩
  | some g =>
    cases hf : findClosestTarget cfg acc.st.targets p with
    | some tid =>
      rw [processDetection_match cfg gpsOf acc p g tid hg hf]
      have hids : ∀ t : Target,
          ((fun t => if t.id = tid then targetUpdate t p g else t) t).id
            = t.id := by
        intro t
        by_cases h : t.id = tid
        · simp [h, targetUpdate_id]
        · simp [h]
      have hmapids : (acc.st.targets.map
          (fun t => if t.id = tid then targetUpdate t p g else t)).map Target.id
          = acc.st.targets.map Target.id := by
        rw [List.map_map]
        exact List.map_congr_left (fun t _ => hids t)
      refine ⟨by rw [hmapids]; exact hnd, ?_, le_refl _, ?_⟩
      · intro t' ht'
        simp only [List.mem_map] at ht'
        obtain ⟨t, ht, rfl⟩ := ht'
        rw [hids t]
        exact hbound t ht
      · intro t' ht' hrep
        simp only [List.mem_map] at ht'
        obtain ⟨t, ht, rfl⟩ := ht'
        left
        refine ⟨t, ht, (hids t).symm, ?_⟩
        by_cases h : t.id = tid
        · rw [if_pos h, targetUpdate_is_reported] at hrep; exact hrep
        · rw [if_neg h] at hrep; exact hrep
    | none =>
      rw [processDetection_new cfg gpsOf acc p g hg hf]
      have hidsapp : (acc.st.targets ++ [newTarget cfg acc.st.next_id p g]).map
          Target.id = acc.st.targets.map Target.id ++ [acc.st.next_id] := by
        simp [newTarget]
      refine ⟨?_, ?_, Nat.le_succ _, ?_⟩
      · rw [hidsapp]
        refine nodup_append_singleton hnd ?_
        intro hmem
        simp only [List.mem_map] at hmem
        obtain ⟨t, ht, hid⟩ := hmem
        exact absurd hid (Nat.ne_of_lt (hbound t ht))
      · intro t' ht'
        rcases List.mem_append.mp ht' with h | h
        · exact Nat.lt_succ_of_lt (hbound t' h)
        · rw [List.mem_singleton.mp h]
          exact Nat.lt_succ_self _
      · intro t' ht' hrep
        rcases List.mem_append.mp ht' with h | h
        · exact Or.inl ⟨t', h, rfl, hrep⟩
        · right
          rw [List.mem_singleton.mp h]
          exact le_refl _

/-- `processDetection_spec`, iterated over all detections of a frame. -/
theorem detectFold_spec (cfg : TMConfig) (gpsOf : Pixel → Option Gps) :
    ∀ (ds : List Pixel) (acc : CycleAcc),
      (acc.st.targets.map Target.id).Nodup →
      (∀ t ∈ acc.st.targets, t.id < acc.st.next_id) →
      (((ds.foldl (processDetection cfg gpsOf) acc).st.targets.map
          Target.id).Nodup ∧
       (∀ t ∈ (ds.foldl (processDetection cfg gpsOf) acc).st.targets,
          t.id < (ds.foldl (processDetection cfg gpsOf) acc).st.next_id) ∧
       acc.st.next_id ≤ (ds.foldl (processDetection cfg gpsOf) acc).st.next_id ∧
       (∀ t' ∈ (ds.foldl (processDetection cfg gpsOf) acc).st.targets,
          t'.is_reported = false →
          (∃ t ∈ acc.st.targets, t.id = t'.id ∧ t.is_reported = false) ∨
            acc.st.next_id ≤ t'.id)) := by
  intro ds
  induction ds with
  | nil => intro acc hnd hbound; exact ⟨hnd, hbound, le_refl _,
      fun t' ht' hrep => Or.inl ⟨t', ht', rfl, hrep⟩⟩
  | cons d ds ih =>
    intro acc hnd hbound
    obtain ⟨h1, h2, h3, h4⟩ := processDetection_spec cfg gpsOf acc d hnd hbound
    obtain ⟨g1, g2, g3, g4⟩ := ih (processDetection cfg gpsOf acc d) h1 h2
    refine ⟨g1, g2, le_trans h3 g3, ?_⟩
    intro t' ht' hrep
    rcases g4 t' ht' hrep with ⟨t, ht, hid, hrept⟩ | hge
    · rcases h4 t ht hrept with ⟨t0, ht0, hid0, hrep0⟩ | hge0
      · exact Or.inl ⟨t0, ht0, hid0.trans hid, hrep0⟩
      · exact Or.inr (hid ▸ hge0)
    · exact Or.inr (le_trans h3 hge)

/-- `detectFold_spec` restated for the packaged detection phase. -/
theorem detectPhase_spec (cfg : TMConfig) (gpsOf : Pixel → Option Gps)
    (st : TMState) (ds : List Pixel)
    (hnd : (st.targets.map Target.id).Nodup)
    (hbound : ∀ t ∈ st.targets, t.id < st.next_id) :
    (((detectPhase cfg gpsOf st ds).st.targets.map Target.id).Nodup ∧
     (∀ t ∈ (detectPhase cfg gpsOf st ds).st.targets,
        t.id < (detectPhase cfg gpsOf st ds).st.next_id) ∧
     st.next_id ≤ (detectPhase cfg gpsOf st ds).st.next_id ∧
     (∀ t' ∈ (detectPhase cfg gpsOf st ds).st.targets,
        t'.is_reported = false →
        (∃ t ∈ st.targets, t.id = t'.id ∧ t.is_reported = false) ∨
          st.next_id ≤ t'.id)) :=
  detectFold_spec cfg gpsOf ds ⟨st, []⟩ hnd hbound

/-- One update cycle, written out through the age-and-report
characterisation. -/
theorem tmUpdate_eq (cfg : TMConfig) (gpsOf : Pixel → Option Gps)
    (st : TMState) (ds : List Pixel) :
    tmUpdate cfg gpsOf st ds
      = (⟨evictOld cfg ((detectPhase cfg gpsOf st ds).st.targets.map
            (fun t => markOne cfg
              (ageOne (detectPhase cfg gpsOf st ds).updated t))),
          (detectPhase cfg gpsOf st ds).st.next_id⟩,
         (((detectPhase cfg gpsOf st ds).st.targets.map
            (ageOne (detectPhase cfg gpsOf st ds).updated)).filter
              (fun t => willReport cfg t)).map mkReport) := by
  simp only [tmUpdate, ageAndReport_eq]

theorem mkReport_id (t : Target) : (mkReport t).id = t.id := rfl

/-- The reporting invariant is preserved by one full update cycle. -/
theorem tmUpdate_inv (cfg : TMConfig) (gpsOf : Pixel → Option Gps)
    (st : TMState) (ds : List Pixel) (emitted : List Report)
    (h : Inv st emitted) :
    Inv (tmUpdate cfg gpsOf st ds).1
      (emitted ++ (tmUpdate cfg gpsOf st ds).2) := by
  obtain ⟨hnd, hbound, hcnt, hunrep, hfresh⟩ := h
  obtain ⟨A1, A2, A3, A4⟩ := detectPhase_spec cfg gpsOf st ds hnd hbound
  rw [tmUpdate_eq]
  generalize hLdef : (detectPhase cfg gpsOf st ds).st.targets = L at A1 A2 A4
  generalize hUdef : (detectPhase cfg gpsOf st ds).updated = upd
  generalize hNdef : (detectPhase cfg gpsOf st ds).st.next_id = N at A2 A3
  have haged_ids : (L.map (ageOne upd)).map Target.id = L.map Target.id := by
    rw [List.map_map]
    exact List.map_congr_left (fun t _ => ageOne_id upd t)
  have hmarked_ids :
      (L.map (fun t => markOne cfg (ageOne upd t))).map Target.id
        = L.map Target.id := by
    rw [List.map_map]
    refine List.map_congr_left (fun t _ => ?_)
    show (markOne cfg (ageOne upd t)).id = t.id
    rw [markOne_id, ageOne_id]
  -- membership in the emitted-this-cycle reports
  have hrs_mem : ∀ r ∈ (((L.map (ageOne upd)).filter
        (fun t => willReport cfg t)).map mkReport),
      ∃ s ∈ L, r = mkReport (ageOne upd s) ∧
        willReport cfg (ageOne upd s) = true := by
    intro r hr
    simp only [List.mem_map, List.mem_filter] at hr
    obtain ⟨t2, ⟨ht2mem, ht2will⟩, rfl⟩ := hr
    obtain ⟨s, hs, rfl⟩ := ht2mem
    exact ⟨s, hs, rfl, ht2will⟩
  -- each identity appears at most once in this cycle's reports
  have hrs_le : ∀ i, reportCount (((L.map (ageOne upd)).filter
        (fun t => willReport cfg t)).map mkReport) i ≤ 1 := by
    intro i
    unfold reportCount
    rw [List.countP_map]
    have hfun : ((fun r : Report => decide (r.id = i)) ∘ mkReport)
        = (fun t : Target => decide (t.id = i)) := rfl
    rw [hfun]
    calc ((L.map (ageOne upd)).filter (fun t => willReport cfg t)).countP
          (fun t => decide (t.id = i))
        ≤ (L.map (ageOne upd)).countP (fun t => decide (t.id = i)) :=
          (List.filter_sublist _).countP_le _
      _ ≤ 1 := countP_id_le_one _ i (by rw [haged_ids]; exact A1)
  -- a reported identity this cycle comes from an unreported live target
  have hrs_src : ∀ i, reportCount (((L.map (ageOne upd)).filter
        (fun t => willReport cfg t)).map mkReport) i ≠ 0 →
      ∃ s ∈ L, s.id = i ∧ s.is_reported = false ∧
        willReport cfg (ageOne upd s) = true := by
    intro i hz
    have hpos : 0 < reportCount (((L.map (ageOne upd)).filter
        (fun t => willReport cfg t)).map mkReport) i := Nat.pos_of_ne_zero hz
    unfold reportCount at hpos
    rw [List.countP_pos] at hpos
    obtain ⟨r, hr, hri⟩ := hpos
    obtain ⟨s, hs, rfl, hwill⟩ := hrs_mem r hr
    simp only [decide_eq_true_eq] at hri
    rw [mkReport_id, ageOne_id] at hri
    refine ⟨s, hs, hri, ?_, hwill⟩
    have : (ageOne upd s).is_reported = false := by
      unfold willReport at hwill
      cases hb : (ageOne upd s).is_reported
      · rfl
      · rw [hb] at hwill; simp at hwill
    rwa [ageOne_is_reported] at this
  -- an unreported source target was never reported before this cycle
  have hsrc_zero : ∀ s ∈ L, s.is_reported = false →
      reportCount emitted s.id = 0 := by
    intro s hs hsrep
    rcases A4 s hs hsrep with ⟨t0, ht0, hid0, hrep0⟩ | hge
    · have := hunrep t0 ht0 hrep0
      rwa [hid0] at this
    · exact hfresh s.id hge
  refine ⟨?_, ?_, ?_, ?_, ?_⟩
  · -- ids stay unique
    have hsub : List.Sublist
        ((evictOld cfg (L.map (fun t => markOne cfg (ageOne upd t)))).map
          Target.id)
        ((L.map (fun t => markOne cfg (ageOne upd t))).map Target.id) :=
      (List.filter_sublist _).map _
    have hnd2 : ((L.map (fun t => markOne cfg (ageOne upd t))).map
        Target.id).Nodup := by rw [hmarked_ids]; exact A1
    exact hnd2.sublist hsub
  · -- ids stay below the freshness counter
    intro t'' ht''
    have ht2 : t'' ∈ L.map (fun t => markOne cfg (ageOne upd t)) :=
      List.mem_of_mem_filter ht''
    obtain ⟨s, hs, rfl⟩ := List.mem_map.mp ht2
    show (markOne cfg (ageOne upd s)).id < N
    rw [markOne_id, ageOne_id]
    exact A2 s hs
  · -- every identity still reported at most once
    intro i
    rw [reportCount_append]
    by_cases hz : reportCount (((L.map (ageOne upd)).filter
        (fun t => willReport cfg t)).map mkReport) i = 0
    · rw [hz]
      simpa using hcnt i
    · obtain ⟨s, hs, hsid, hsrep, _⟩ := hrs_src i hz
      have he0 : reportCount emitted i = 0 := hsid ▸ hsrc_zero s hs hsrep
      rw [he0]
      simpa using hrs_le i
  · -- a live unreported target has never been reported
    intro t'' ht'' hrep''
    have ht2 : t'' ∈ L.map (fun t => markOne cfg (ageOne upd t)) :=
      List.mem_of_mem_filter ht''
    obtain ⟨s, hs, rfl⟩ := List.mem_map.mp ht2
    have hb := markOne_is_reported cfg (ageOne upd s)
    rw [hrep''] at hb
    have hba : (ageOne upd s).is_reported = false ∧
        willReport cfg (ageOne upd s) = false := by
      cases h1 : (ageOne upd s).is_reported <;>
        cases h2 : willReport cfg (ageOne upd s) <;>
          rw [h1, h2] at hb
      · exact ⟨rfl, rfl⟩
      · simp at hb
      · simp at hb
      · simp at hb
    have hsrep : s.is_reported = false := by
      have := hba.1; rwa [ageOne_is_reported] at this
    rw [reportCount_append]
    have he0 : reportCount emitted (markOne cfg (ageOne upd s)).id = 0 := by
      rw [markOne_id, ageOne_id]
      exact hsrc_zero s hs hsrep
    have hr0 : reportCount (((L.map (ageOne upd)).filter
        (fun t => willReport cfg t)).map mkReport)
        (markOne cfg (ageOne upd s)).id = 0 := by
      by_contra hz
      obtain ⟨s2, hs2, hs2id, _, hs2will⟩ := hrs_src _ hz
      rw [markOne_id, ageOne_id] at hs2id
      have : s2 = s := mem_id_eq L A1 s2 hs2 s hs hs2id
      rw [this] at hs2will
      rw [hs2will] at hba
      simp at hba
    rw [he0, hr0]
  · -- unallocated identities have never been reported
    intro i hNi
    rw [reportCount_append]
    have he0 : reportCount emitted i = 0 := hfresh i (le_trans A3 hNi)
    have hr0 : reportCount (((L.map (ageOne upd)).filter
        (fun t => willReport cfg t)).map mkReport) i = 0 := by
      unfold reportCount
      rw [List.countP_eq_zero]
      intro r hr
      obtain ⟨s, hs, rfl, _⟩ := hrs_mem r hr
      simp only [decide_eq_true_eq]
      rw [mkReport_id, ageOne_id]
      exact Nat.ne_of_lt (lt_of_lt_of_le (A2 s hs) hNi)
    rw [he0, hr0]

/-- The reporting invariant is preserved by any run of update cycles. -/
theorem tmRun_inv (cfg : TMConfig) (gpsOf : Pixel → Option Gps) :
    ∀ (cycles : List (List Pixel)) (st : TMState) (emitted : List Report),
      Inv st emitted →
      Inv (tmRun cfg gpsOf st cycles).1
        (emitted ++ (tmRun cfg gpsOf st cycles).2) := by
  intro cycles
  induction cycles with
  | nil => intro st emitted h; simpa [tmRun] using h
  | cons ds rest ih =>
    intro st emitted h
    have h2 := ih (tmUpdate cfg gpsOf st ds).1
      (emitted ++ (tmUpdate cfg gpsOf st ds).2)
      (tmUpdate_inv cfg gpsOf st ds emitted h)
    simpa [tmRun, List.append_assoc] using h2

/-- A fresh `TargetManager` satisfies the reporting invariant. -/
theorem Inv_init : Inv ⟨[], 0⟩ [] := by
  refine ⟨List.nodup_nil, ?_, ?_, ?_, ?_⟩ <;> simp [reportCount]

theorem distSq_self (p : Pixel) : distSq p p = 0 := by
  simp [distSq]

/-- A single tracked target sitting exactly at the detection pixel is matched
whenever the configured pixel threshold is positive. -/
theorem findClosest_single (cfg : TMConfig) (t : Target) (p : Pixel)
    (hth : 0 < cfg.pixel_distance_threshold)
    (hpix : t.last_pixel_coords = p) :
    findClosestTarget cfg [t] p = some t.id := by
  have hwithin : 0 < cfg.pixel_distance_threshold ∧
      distSq p t.last_pixel_coords < cfg.pixel_distance_threshold ^ 2 := by
    refine ⟨hth, ?_⟩
    rw [hpix, distSq_self]
    positivity
  simp only [findClosestTarget, List.foldl_cons, List.foldl_nil]
  rw [if_pos hwithin]
  rfl

/-- One update cycle over a single tracked target re-detected at its own
pixel: the counter advances by one, frames-unseen resets, and the target is
reported exactly if the advanced counter has reached the threshold. -/
theorem tmUpdate_single_match (cfg : TMConfig) (gpsOf : Pixel → Option Gps)
    (p : Pixel) (g : Gps) (j u : ℤ) (hgps : gpsOf p = some g)
    (hth : 0 < cfg.pixel_distance_threshold)
    (hun : 0 < cfg.unseen_frames_threshold)
    (hj : j ≤ cfg.confirmation_frames) :
    tmUpdate cfg gpsOf
        ⟨[⟨0, p, g, j, u, false, cfg.confirmation_frames⟩], 1⟩ [p]
      = if cfg.confirmation_frames ≤ j + 1 then
          (⟨[⟨0, p, g, j + 1, 0, true, cfg.confirmation_frames⟩], 1⟩,
           [⟨0, g.1, g.2⟩])
        else
          (⟨[⟨0, p, g, j + 1, 0, false, cfg.confirmation_frames⟩], 1⟩, []) := by
  have hfind : findClosestTarget cfg
      [⟨0, p, g, j, u, false, cfg.confirmation_frames⟩] p = some 0 :=
    findClosest_single cfg _ p hth rfl
  have htu : targetUpdate ⟨0, p, g, j, u, false, cfg.confirmation_frames⟩ p g
      = ⟨0, p, g, j + 1, 0, false, cfg.confirmation_frames⟩ := by
    show Target.mk 0 p g (if j ≤ cfg.confirmation_frames then j + 1 else j) 0
        false cfg.confirmation_frames = _
    rw [if_pos hj]
  have hpd : processDetection cfg gpsOf
      ⟨⟨[⟨0, p, g, j, u, false, cfg.confirmation_frames⟩], 1⟩, []⟩ p
      = ⟨⟨[⟨0, p, g, j + 1, 0, false, cfg.confirmation_frames⟩], 1⟩, [0]⟩ := by
    rw [processDetection_match cfg gpsOf _ p g 0 hgps hfind]
    simp only [List.map_cons, List.map_nil, if_true, htu]
  have hage : ageOne [0] (⟨0, p, g, j + 1, 0, false,
      cfg.confirmation_frames⟩ : Target)
      = ⟨0, p, g, j + 1, 0, false, cfg.confirmation_frames⟩ := by
    unfold ageOne
    rw [if_pos (by simp :
      (⟨0, p, g, j + 1, 0, false, cfg.confirmation_frames⟩ : Target).id ∈ [0])]
  have hwr : willReport cfg (⟨0, p, g, j + 1, 0, false,
      cfg.confirmation_frames⟩ : Target)
      = decide (cfg.confirmation_frames ≤ j + 1) := by
    unfold willReport
    simp
  simp only [tmUpdate, detectPhase, List.foldl_cons, List.foldl_nil, hpd]
  simp only [ageAndReport, hage, hwr]
  by_cases hc : cfg.confirmation_frames ≤ j + 1
  · rw [if_pos hc]
    simp only [decide_eq_true_eq, if_pos hc]
    have hev : evictOld cfg [⟨0, p, g, j + 1, 0, true,
        cfg.confirmation_frames⟩] = [⟨0, p, g, j + 1, 0, true,
        cfg.confirmation_frames⟩] := by
      unfold evictOld
      rw [List.filter_cons]
      simp [hun]
    simp [hev, mkReport]
  · rw [if_neg hc]
    simp only [decide_eq_true_eq, if_neg hc]
    have hev : evictOld cfg [⟨0, p, g, j + 1, 0, false,
        cfg.confirmation_frames⟩] = [⟨0, p, g, j + 1, 0, false,
        cfg.confirmation_frames⟩] := by
      unfold evictOld
      rw [List.filter_cons]
      simp [hun]
    simp [hev]

/-- The first update cycle over a fresh manager with a single projectable
detection: a target is created at counter 1, immediately aged to
frames-unseen 1 (new targets are not in the updated-this-frame set), and
reported at once exactly if the threshold is already ≤ 1. -/
theorem tmUpdate_first (cfg : TMConfig) (gpsOf : Pixel → Option Gps)
    (p : Pixel) (g : Gps) (hgps : gpsOf p = some g)
    (hun : 1 < cfg.unseen_frames_threshold) :
    tmUpdate cfg gpsOf ⟨[], 0⟩ [p]
      = if cfg.confirmation_frames ≤ 1 then
          (⟨[⟨0, p, g, 1, 1, true, cfg.confirmation_frames⟩], 1⟩,
           [⟨0, g.1, g.2⟩])
        else (⟨[⟨0, p, g, 1, 1, false, cfg.confirmation_frames⟩], 1⟩, []) := by
  have hfind : findClosestTarget cfg [] p = none := rfl
  have hpd : processDetection cfg gpsOf ⟨⟨[], 0⟩, []⟩ p
      = ⟨⟨[⟨0, p, g, 1, 0, false, cfg.confirmation_frames⟩], 1⟩, []⟩ := by
    rw [processDetection_new cfg gpsOf _ p g hgps hfind]
    rfl
  have hage : ageOne []
      (⟨0, p, g, 1, 0, false, cfg.confirmation_frames⟩ : Target)
      = ⟨0, p, g, 1, 1, false, cfg.confirmation_frames⟩ := by
    unfold ageOne
    rw [if_neg (by simp :
      ¬(⟨0, p, g, 1, 0, false, cfg.confirmation_frames⟩ : Target).id
        ∈ ([] : List ℕ))]
    rfl
  have hwr : willReport cfg
      (⟨0, p, g, 1, 1, false, cfg.confirmation_frames⟩ : Target)
      = decide (cfg.confirmation_frames ≤ 1) := by
    unfold willReport
    simp
  simp only [tmUpdate, detectPhase, List.foldl_cons, List.foldl_nil, hpd]
  simp only [ageAndReport, hage, hwr]
  by_cases hc : cfg.confirmation_frames ≤ 1
  · rw [if_pos hc]
    simp only [decide_eq_true_eq, if_pos hc]
    have hev : evictOld cfg
        [⟨0, p, g, 1, 1, true, cfg.confirmation_frames⟩]
        = [⟨0, p, g, 1, 1, true, cfg.confirmation_frames⟩] := by
      unfold evictOld
      rw [List.filter_cons]
      simp [hun]
    simp [hev, mkReport]
  · rw [if_neg hc]
    simp only [decide_eq_true_eq, if_neg hc]
    have hev : evictOld cfg
        [⟨0, p, g, 1, 1, false, cfg.confirmation_frames⟩]
        = [⟨0, p, g, 1, 1, false, cfg.confirmation_frames⟩] := by
      unfold evictOld
      rw [List.filter_cons]
      simp [hun]
    simp [hev]

/-- From a single unreported target whose counter will reach the threshold at
the end of the remaining cycles, repeating its detection yields no report
until the final cycle, which yields exactly one. -/
theorem scenario_run_reports (cfg : TMConfig) (gpsOf : Pixel → Option Gps)
    (p : Pixel) (g : Gps) (hgps : gpsOf p = some g)
    (hth : 0 < cfg.pixel_distance_threshold)
    (hun : 0 < cfg.unseen_frames_threshold) :
    ∀ (m : ℕ) (j u : ℤ), 1 ≤ j → j + m = cfg.confirmation_frames →
      (tmRun cfg gpsOf
        ⟨[⟨0, p, g, j, u, false, cfg.confirmation_frames⟩], 1⟩
        (List.replicate m [p])).2.length = if m = 0 then 0 else 1 := by
  intro m
  induction m with
  | zero => intro j u hj hsum; simp [tmRun]
  | succ m ih =>
    intro j u hj hsum
    have hj_le : j ≤ cfg.confirmation_frames := by push_cast at hsum; omega
    rw [List.replicate_succ]
    simp only [tmRun]
    rw [tmUpdate_single_match cfg gpsOf p g j u hgps hth hun hj_le]
    rcases Nat.eq_zero_or_pos m with hm | hm
    · subst hm
      have hc : cfg.confirmation_frames ≤ j + 1 := by push_cast at hsum; omega
      rw [if_pos hc]
      simp [tmRun]
    · have hc : ¬(cfg.confirmation_frames ≤ j + 1) := by
        push_cast at hsum; omega
      rw [if_neg hc]
      have hrec := ih (j + 1) 0 (by omega) (by push_cast at hsum ⊢; omega)
      simp only [List.nil_append]
      rw [hrec, if_neg (by omega), if_neg (by omega)]

/-- As long as the counter stays short of the threshold, repeating the
detection produces no report at all. -/
theorem scenario_run_noreports (cfg : TMConfig) (gpsOf : Pixel → Option Gps)
    (p : Pixel) (g : Gps) (hgps : gpsOf p = some g)
    (hth : 0 < cfg.pixel_distance_threshold)
    (hun : 0 < cfg.unseen_frames_threshold) :
    ∀ (m : ℕ) (j u : ℤ), 1 ≤ j → j + m < cfg.confirmation_frames →
      (tmRun cfg gpsOf
        ⟨[⟨0, p, g, j, u, false, cfg.confirmation_frames⟩], 1⟩
        (List.replicate m [p])).2.length = 0 := by
  intro m
  induction m with
  | zero => intro j u hj hlt; simp [tmRun]
  | succ m ih =>
    intro j u hj hlt
    have hj_le : j ≤ cfg.confirmation_frames := by push_cast at hlt; omega
    have hc : ¬(cfg.confirmation_frames ≤ j + 1) := by push_cast at hlt; omega
    rw [List.replicate_succ]
    simp only [tmRun]
    rw [tmUpdate_single_match cfg gpsOf p g j u hgps hth hun hj_le, if_neg hc]
    simp only [List.nil_append]
    exact ih (j + 1) 0 (by omega) (by push_cast at hlt ⊢; omega)

/-! ## C4 — each target reported at most once -/

/-- C4: (1) over every run of update cycles from a fresh manager, each target
identity occurs in the emitted reports at most once — `is_reported` is set
exactly when a report is put on the queue, never cleared, and uuid identities
are never reused, so a target is never re-reported even if re-confirmed after
eviction of others; (2) a single detection repeated at the same pixel location
for exactly `confirmationThreshold` consecutive cycles (under a positive pixel
threshold and an unseen threshold that lets the track survive its creation
cycle) produces exactly one report, and the first `confirmationThreshold - 1`
of those cycles produce none — the report is emitted at the cycle in which the
confirmation counter first reaches the threshold. -/
theorem c4_report_at_most_once :
    (∀ (cfg : TMConfig) (gpsOf : Pixel → Option Gps)
        (cycles : List (List Pixel)) (i : ℕ),
        reportCount (tmRun cfg gpsOf ⟨[], 0⟩ cycles).2 i ≤ 1) ∧
    (∀ (cfg : TMConfig) (gpsOf : Pixel → Option Gps) (p : Pixel) (g : Gps)
        (k : ℕ),
        gpsOf p = some g → 0 < cfg.pixel_distance_threshold →
        1 < cfg.unseen_frames_threshold → 1 ≤ k →
        (k : ℤ) = cfg.confirmation_frames →
        (tmRun cfg gpsOf ⟨[], 0⟩ (List.replicate k [p])).2.length = 1 ∧
        (tmRun cfg gpsOf ⟨[], 0⟩ (List.replicate (k - 1) [p])).2.length = 0) := by
  constructor
  · intro cfg gpsOf cycles i
    have h := tmRun_inv cfg gpsOf cycles ⟨[], 0⟩ [] Inv_init
    have := h.2.2.1 i
    simpa using this
  · intro cfg gpsOf p g k hgps hth hun1 hk hkcf
    have hun0 : 0 < cfg.unseen_frames_threshold := by omega
    obtain ⟨n, rfl⟩ : ∃ n, k = n + 1 := ⟨k - 1, by omega⟩
    constructor
    · rw [List.replicate_succ]
      simp only [tmRun]
      rw [tmUpdate_first cfg gpsOf p g hgps hun1]
      by_cases hc1 : cfg.confirmation_frames ≤ 1
      · rw [if_pos hc1]
        have hn : n = 0 := by push_cast at hkcf; omega
        subst hn
        simp [tmRun]
      · rw [if_neg hc1]
        have hrun := scenario_run_reports cfg gpsOf p g hgps hth hun0 n 1 1
          (le_refl 1) (by push_cast at hkcf ⊢; omega)
        have hn : n ≠ 0 := by push_cast at hkcf; omega
        simp only [List.nil_append]
        rw [hrun, if_neg hn]
    · simp only [Nat.add_sub_cancel]
      cases n with
      | zero => simp [tmRun]
      | succ n' =>
        rw [List.replicate_succ]
        simp only [tmRun]
        rw [tmUpdate_first cfg gpsOf p g hgps hun1]
        have hc1 : ¬(cfg.confirmation_frames ≤ 1) := by
          push_cast at hkcf; omega
        rw [if_neg hc1]
        simp only [List.nil_append]
        exact scenario_run_noreports cfg gpsOf p g hgps hth hun0 n' 1 1
          (le_refl 1) (by push_cast at hkcf ⊢; omega)

/-- Witness for `c4_report_at_most_once` with threshold 2: two cycles of the
same single detection yield exactly one report, one cycle yields none, and
report counts in a concrete run stay at most 1. -/
theorem c4_report_at_most_once_witness :
    reportCount (tmRun ⟨2, 100, 50⟩ (fun _ => some ((0 : ℚ), (0 : ℚ)))
        ⟨[], 0⟩ (List.replicate 2 [((0 : ℚ), (0 : ℚ))])).2 0 ≤ 1 ∧
    (tmRun ⟨2, 100, 50⟩ (fun _ => some ((0 : ℚ), (0 : ℚ))) ⟨[], 0⟩
        (List.replicate 2 [((0 : ℚ), (0 : ℚ))])).2.length = 1 ∧
    (tmRun ⟨2, 100, 50⟩ (fun _ => some ((0 : ℚ), (0 : ℚ))) ⟨[], 0⟩
        (List.replicate (2 - 1) [((0 : ℚ), (0 : ℚ))])).2.length = 0 := by
  obtain ⟨h1, h2⟩ := c4_report_at_most_once
  have hs := h2 ⟨2, 100, 50⟩ (fun _ => some ((0 : ℚ), (0 : ℚ)))
    ((0 : ℚ), (0 : ℚ)) ((0 : ℚ), (0 : ℚ)) 2 rfl (by norm_num) (by norm_num)
    (by norm_num) (by norm_num)
  exact ⟨h1 ⟨2, 100, 50⟩ (fun _ => some ((0 : ℚ), (0 : ℚ))) _ 0, hs.1, hs.2⟩

end MavBridge
